import Mathlib

/-!
# URL shortener: mapping store, expiry and code generation

A shallow embedding of the two stores of the repository:

* `services/urlService.js` : the in-memory `UrlService` (two `Map`s and an id counter);
* the single-file variant (`createMapping`, `isExpired`, `generateUnique`, `ShortenForm.submit`)
  whose table lives under the localStorage key `url_mappings_v1`.

Conventions of the embedding.

* Time values are integers (milliseconds since the epoch); a `Date` is `Option ℤ`, `none` being
  the invalid date.
* A JavaScript number is `JsNum`: `NaN` or a finite value held as an exact rational.  Products,
  sums and quotients are exact, where the source computes in IEEE doubles.  The two agree when
  the validity is a whole number of minutes and the clock values are valid dates not before the
  epoch; for a fractional validity the double product or quotient can be rounded, and the
  expiry instant of the source can then lie 1 ms later than the exact one (never earlier).
  Statements that fix the expiry instant are therefore made for whole minutes only.  The
  infinities are not represented.
* A `Map` (and the parsed JSON object) is an association list in insertion order.  For the
  parsed object this is not the order JavaScript enumerates keys in (integer-like keys come
  first); the statements about the localStorage table do not depend on the order.
* Platform inputs are explicit arguments: the URL parser behind `new URL(..)`, the clock, the
  outcomes of `Math.random()` and of `crypto.getRandomValues`, `navigator.userAgent`.
* The logging sink is write-only and separate from both tables; it is not represented.
-/

namespace UrlShortener

/-! ## JavaScript values -/

/-- A JavaScript number: `NaN` or a finite value. -/
inductive JsNum where
  | nan : JsNum
  | fin (q : ℚ) : JsNum
  deriving DecidableEq

namespace JsNum

/-- The truthiness of a number (`ToBoolean`): `0` and `NaN` are falsy. -/
def truthy : JsNum → Bool
  | nan => false
  | fin q => decide (q ≠ 0)

/-- The global `isNaN` on a number. -/
def isNaN : JsNum → Bool
  | nan => true
  | fin _ => false

/-- The comparison `x <= 0`; any comparison with `NaN` is false. -/
def le0 : JsNum → Bool
  | nan => false
  | fin q => decide (q ≤ 0)

/-- The product `x * y`. -/
def mul : JsNum → JsNum → JsNum
  | fin a, fin b => fin (a * b)
  | _, _ => nan

/-- The sum `x + y`. -/
def add : JsNum → JsNum → JsNum
  | fin a, fin b => fin (a + b)
  | _, _ => nan

/-- The comparison `x > y`; false when either side is `NaN`. -/
def gt : JsNum → JsNum → Bool
  | fin a, fin b => decide (b < a)
  | _, _ => false

/-- The expression `x || d` on numbers. -/
def orElse (x d : JsNum) : JsNum := if x.truthy then x else d

end JsNum

/-- The largest time value a `Date` can hold, in milliseconds. -/
def maxTime : ℤ := 8640000000000000

/-- Rounding towards zero (`ToIntegerOrInfinity`). -/
def truncQ (x : ℚ) : ℤ := if 0 ≤ x then ⌊x⌋ else ⌈x⌉

/-- The time value of `new Date(x)` for a number `x` (`TimeClip`): invalid for `NaN` and
outside the range, else `x` rounded towards zero. -/
def newDate : JsNum → Option ℤ
  | JsNum.nan => none
  | JsNum.fin x => if |x| > (maxTime : ℚ) then none else some (truncQ x)

/-- The number a `Date` converts to in a comparison. -/
def dateValue : Option ℤ → JsNum
  | none => JsNum.nan
  | some t => JsNum.fin (t : ℚ)

/-- One outcome of `Math.random()`: a fraction `num / den` in `[0, 1)`. -/
structure Rand01 where
  num : ℕ
  den : ℕ
  lt : num < den

/-- The index `Math.floor(r * n)`. -/
def Rand01.floorMul (r : Rand01) (n : ℕ) : ℕ := r.num * n / r.den

/-- The string `s.charAt(i)`, also the text that `s[i]` contributes to a `join`: one character,
or the empty string when `i` is out of range. -/
def charAt (s : String) (i : ℕ) : String :=
  match s.data.get? i with
  | some c => String.singleton c
  | none => ""

/-- The character class `[a-zA-Z0-9_-]`. -/
def isCodeChar (c : Char) : Bool := c.isAlphanum || c == '_' || c == '-'

/-- The test `/^[a-zA-Z0-9_-]{4,}$/.test(s)`. -/
def matchesAtLeast4 (s : String) : Bool := s.data.all isCodeChar && decide (4 ≤ s.length)

/-- The test `/^[A-Za-z0-9_-]{4,12}$/.test(s)`. -/
def matches4to12 (s : String) : Bool :=
  s.data.all isCodeChar && decide (4 ≤ s.length) && decide (s.length ≤ 12)

/-! ## Maps -/

/-- The lookup `m.get(k)`; `none` is `undefined`. -/
def mapGet {V : Type} : List (String × V) → String → Option V
  | [], _ => none
  | (k, v) :: m, c => if k = c then some v else mapGet m c

/-- The test `m.has(k)`. -/
def mapHas {V : Type} (m : List (String × V)) (c : String) : Bool := (mapGet m c).isSome

/-- The update `m.set(k, v)`: an existing key keeps its position, a new key goes last. -/
def mapSet {V : Type} : List (String × V) → String → V → List (String × V)
  | [], c, v => [(c, v)]
  | (k, w) :: m, c, v => if k = c then (k, v) :: m else (k, w) :: mapSet m c v

/-- The keys of a map, in order. -/
def mapKeys {V : Type} (m : List (String × V)) : List String := m.map Prod.fst

/-! ## `UrlService` (services/urlService.js) -/

/-- The record `urlData` kept in `urlMappings`. -/
structure UrlData where
  id : ℕ
  longUrl : String
  shortCode : String
  createdAt : ℤ
  expiresAt : Option ℤ
  clicks : ℕ
  deriving DecidableEq

/-- The record `clickInfo` pushed on a successful resolution. -/
structure ClickInfo where
  timestamp : ℤ
  source : String
  location : String
  deriving DecidableEq

/-- The fields of a `UrlService` instance. -/
structure UrlService where
  urlMappings : List (String × UrlData)
  clickData : List (String × List ClickInfo)
  nextId : ℕ
  deriving DecidableEq

/-- The state the constructor builds. -/
def UrlService.new : UrlService := { urlMappings := [], clickData := [], nextId := 1 }

/-- The errors the service throws; `typeError` is the runtime error of calling `push` on
`undefined`. -/
inductive ServiceError where
  | invalidUrl
  | invalidValidity
  | invalidCodeFormat
  | codeConflict
  | notFound
  | expired
  | typeError
  deriving DecidableEq

/-- The message carried by each thrown `Error`. -/
def ServiceError.message : ServiceError → String
  | invalidUrl => "Please enter a valid URL"
  | invalidValidity => "Validity must be a positive number"
  | invalidCodeFormat =>
    "Shortcode must be at least 4 characters and contain only letters, numbers, hyphens, and underscores"
  | codeConflict => "This shortcode is already in use. Please choose another one."
  | notFound => "URL not found"
  | expired => "This URL has expired"
  | typeError => "Cannot read properties of undefined (reading push)"

/-- The outcome of a call: a returned value or a thrown error. -/
inductive Result (ε α : Type) where
  | ok (a : α)
  | error (e : ε)
  deriving DecidableEq

/-- The object `shortenUrl` returns: `shortUrl` spread with the stored record. -/
structure ShortenResult where
  shortUrl : String
  data : UrlData
  deriving DecidableEq

/-- The alphabet of `generateShortCode`. -/
def characters : String := "ABCDEFGHIJKLMNOPQRSTUVWXYZabcdefghijklmnopqrstuvwxyz0123456789"

/-- `generateShortCode()`, reading its six `Math.random()` outcomes at positions
`pos .. pos + 5` of the stream `rnd`. -/
def generateShortCode (rnd : ℕ → Rand01) (pos : ℕ) : String :=
  (List.range 6).foldl
    (fun result i => result ++ charAt characters ((rnd (pos + i)).floorMul characters.length)) ""

/-- The loop `do { shortCode = generateShortCode() } while (urlMappings.has(shortCode))`,
run for at most `fuel` rounds; `none` when the rounds are used up. -/
def generateLoop (m : List (String × UrlData)) (rnd : ℕ → Rand01) : ℕ → ℕ → Option String
  | 0, _ => none
  | fuel + 1, pos =>
    let shortCode := generateShortCode rnd pos
    if mapHas m shortCode then generateLoop m rnd fuel (pos + 6) else some shortCode

/-- The part of `shortenUrl` after the code is chosen: build the record, store it, return it.
The sum `createdAt.getTime() + validityMinutes * 60000` is taken exactly; it is the value the
doubles of the source give when the validity is a whole number of minutes and `now` is not
before the epoch, and for a fractional validity it is never above that value. -/
def insertRecord (now : ℤ) (s : UrlService) (longUrl : String) (validityMinutes : JsNum)
    (shortCode : String) : Result ServiceError ShortenResult × UrlService :=
  let createdAt := now
  let expiresAt :=
    newDate (JsNum.add (JsNum.fin createdAt) (JsNum.mul validityMinutes (JsNum.fin 60000)))
  let urlData : UrlData :=
    { id := s.nextId, longUrl := longUrl, shortCode := shortCode, createdAt := createdAt,
      expiresAt := expiresAt, clicks := 0 }
  (Result.ok { shortUrl := "http://localhost:3000/" ++ shortCode, data := urlData },
    { urlMappings := mapSet s.urlMappings shortCode urlData,
      clickData := mapSet s.clickData shortCode [],
      nextId := s.nextId + 1 })

/-- `shortenUrl(longUrl, validityMinutes = 30, customShortCode = null)`.
`parseUrl` tells whether `new URL(longUrl)` succeeds, `now` is the clock, `rnd` the stream of
`Math.random()` outcomes and `fuel` the number of rounds granted to the generation loop
(`none` when they are used up).  An omitted argument is `none`. -/
def shortenUrl (parseUrl : String → Bool) (now : ℤ) (rnd : ℕ → Rand01) (fuel : ℕ)
    (s : UrlService) (longUrl : String) (validityMinutes : Option JsNum)
    (customShortCode : Option String) : Option (Result ServiceError ShortenResult × UrlService) :=
  let validityMinutes := validityMinutes.getD (JsNum.fin 30)
  if !parseUrl longUrl then some (Result.error ServiceError.invalidUrl, s)
  else if validityMinutes.truthy && (validityMinutes.isNaN || validityMinutes.le0) then
    some (Result.error ServiceError.invalidValidity, s)
  else
    match customShortCode with
    | some c =>
      if c ≠ "" then
        if !matchesAtLeast4 c then some (Result.error ServiceError.invalidCodeFormat, s)
        else if mapHas s.urlMappings c then some (Result.error ServiceError.codeConflict, s)
        else some (insertRecord now s longUrl validityMinutes c)
      else
        (generateLoop s.urlMappings rnd fuel 0).map (insertRecord now s longUrl validityMinutes)
    | none =>
      (generateLoop s.urlMappings rnd fuel 0).map (insertRecord now s longUrl validityMinutes)

/-- The table of `getCoarseLocation`. -/
def locations : List String :=
  ["North America", "Europe", "Asia", "South America", "Africa", "Oceania"]

/-- `getCoarseLocation()` for one `Math.random()` outcome. -/
def getCoarseLocation (r : Rand01) : String := (locations.get? (r.floorMul locations.length)).getD ""

/-- `getUrl(shortCode)`.  `now` is the clock at the expiry check, `clickTime` the clock when the
click is stamped, `userAgent` the value of `navigator.userAgent`, `r` the random outcome used
for the location.  The increment of `clicks` happens before the click list is read, so it
stays in the state when that read fails. -/
def getUrl (now clickTime : ℤ) (userAgent : String) (r : Rand01) (s : UrlService)
    (shortCode : String) : Result ServiceError UrlData × UrlService :=
  match mapGet s.urlMappings shortCode with
  | none => (Result.error ServiceError.notFound, s)
  | some urlData =>
    if JsNum.gt (JsNum.fin now) (dateValue urlData.expiresAt) then
      (Result.error ServiceError.expired, s)
    else
      let urlData1 := { urlData with clicks := urlData.clicks + 1 }
      let s1 := { s with urlMappings := mapSet s.urlMappings shortCode urlData1 }
      let clickInfo : ClickInfo :=
        { timestamp := clickTime, source := userAgent, location := getCoarseLocation r }
      match mapGet s1.clickData shortCode with
      | none => (Result.error ServiceError.typeError, s1)
      | some list =>
        (Result.ok urlData1,
          { s1 with clickData := mapSet s1.clickData shortCode (list ++ [clickInfo]) })

/-! ## The single-file variant (localStorage table) -/

/-- The alphabet `ALPH`. -/
def ALPH : String := "0123456789abcdefghijklmnopqrstuvwxyzABCDEFGHIJKLMNOPQRSTUVWXYZ"

/-- `randomShort(len)`: `bytes` is the stream `crypto.getRandomValues` fills the `Uint8Array`
from (each entry is stored modulo 256), read at positions `pos .. pos + len - 1`. -/
def randomShort (bytes : ℕ → ℕ) (pos len : ℕ) : String :=
  String.join ((List.range len).map fun i => charAt ALPH ((bytes (pos + i) % 256) % ALPH.length))

/-- The loop of `generateUnique`, started at position `pos` of the byte stream. -/
def generateUniqueFrom (bytes : ℕ → ℕ) (getKeys : Unit → List String) (len : ℕ) :
    ℕ → ℕ → String
  | 0, pos => randomShort bytes pos (len + 2)
  | tries + 1, pos =>
    let cand := randomShort bytes pos len
    if !(getKeys ()).contains cand then cand
    else generateUniqueFrom bytes getKeys len tries (pos + len)

/-- `generateUnique(getKeys, len, tries)`; the source defaults are `len = 6`, `tries = 50`. -/
def generateUnique (bytes : ℕ → ℕ) (getKeys : Unit → List String) (len tries : ℕ) : String :=
  generateUniqueFrom bytes getKeys len tries 0

/-- A record of the table as it is stored: `validMinutes` is a JSON number or `null`. -/
structure Mapping where
  longUrl : String
  createdAt : ℤ
  validMinutes : Option ℚ
  clicks : ℕ
  deriving DecidableEq

/-- The names every plain object inherits from `Object.prototype`. -/
def objectPrototypeKeys : List String :=
  ["constructor", "__defineGetter__", "__defineSetter__", "hasOwnProperty", "__lookupGetter__",
   "__lookupSetter__", "isPrototypeOf", "propertyIsEnumerable", "toString", "valueOf",
   "__proto__", "toLocaleString"]

/-- The truthiness of `m[k]` for the parsed table `m`: an own record, or an inherited member. -/
def objTruthy (m : List (String × Mapping)) (k : String) : Bool :=
  mapHas m k || objectPrototypeKeys.contains k

/-- The value `JSON.stringify` writes for a number: `null` for `NaN`. -/
def jsonNum : JsNum → Option ℚ
  | JsNum.nan => none
  | JsNum.fin q => some q

/-- The error of `createMapping`. -/
inductive StoreError where
  | shortcodeExists
  deriving DecidableEq

/-- The message of the thrown `Error`. -/
def StoreError.message : StoreError → String
  | shortcodeExists => "SHORTCODE_EXISTS"

/-- `createMapping(shortcode, { longUrl, validMinutes = 30 })` on the table `m` read from
storage; returns the record as stored and the table written back. -/
def createMapping (now : ℤ) (m : List (String × Mapping)) (shortcode longUrl : String)
    (validMinutes : Option JsNum) : Result StoreError Mapping × List (String × Mapping) :=
  if objTruthy m shortcode then (Result.error StoreError.shortcodeExists, m)
  else
    let rec0 : Mapping :=
      { longUrl := longUrl, createdAt := now,
        validMinutes := jsonNum (validMinutes.getD (JsNum.fin 30)), clicks := 0 }
    (Result.ok rec0, mapSet m shortcode rec0)

/-- `isExpired(mapping)` at clock `now`; `none` is `null`.  The quotient is taken exactly; it
compares with `validMinutes` as the double quotient of the source does when `validMinutes` is a
whole number and both clocks are valid dates not before the epoch. -/
def isExpired (now : ℤ) : Option Mapping → Bool
  | none => true
  | some mapping =>
    let elapsed : ℚ := (((now - mapping.createdAt : ℤ) : ℚ)) / (60 * 1000)
    decide (elapsed > mapping.validMinutes.getD 30)

/-- The characters `String.prototype.trim` removes (white space and line terminators). -/
def isJsWhiteSpace (c : Char) : Bool :=
  let n := c.toNat
  n == 0x09 || n == 0x0A || n == 0x0B || n == 0x0C || n == 0x0D || n == 0x20 || n == 0xA0 ||
  n == 0x1680 || (decide (0x2000 ≤ n) && decide (n ≤ 0x200A)) || n == 0x2028 || n == 0x2029 ||
  n == 0x202F || n == 0x205F || n == 0x3000 || n == 0xFEFF

/-- `s.trim()`. -/
def jsTrim (s : String) : String :=
  String.mk ((s.data.dropWhile isJsWhiteSpace).reverse.dropWhile isJsWhiteSpace).reverse

/-- What `submit` leaves behind: a form error, the created result, or an uncaught exception. -/
inductive SubmitOutcome where
  | formError (msg : String)
  | created (shortcode shortUrl : String)
  | thrown (e : StoreError)
  deriving DecidableEq

/-- The last step of `submit`: `createMapping(sc, ..)` then `setResult`. -/
def submitCreate (now : ℤ) (origin : String) (m : List (String × Mapping)) (sc url : String)
    (validNumber : JsNum) : SubmitOutcome × List (String × Mapping) :=
  match createMapping now m sc url (some (JsNum.orElse validNumber (JsNum.fin 30))) with
  | (Result.error e, m1) => (SubmitOutcome.thrown e, m1)
  | (Result.ok _, m1) => (SubmitOutcome.created sc (origin ++ "/" ++ sc), m1)

/-- `ShortenForm.submit`.  `url` and `custom` are the form fields, `validNumber` is
`Number(valid)` for the validity field, `origin` is `window.location.origin`, `m` the table in
storage. -/
def submit (parseUrl : String → Bool) (now : ℤ) (bytes : ℕ → ℕ) (origin : String)
    (m : List (String × Mapping)) (url custom : String) (validNumber : JsNum) :
    SubmitOutcome × List (String × Mapping) :=
  if !parseUrl url then (SubmitOutcome.formError "Invalid URL", m)
  else
    let sc := jsTrim custom
    let keys := mapKeys m
    if sc ≠ "" then
      if !matches4to12 sc then
        (SubmitOutcome.formError "Custom shortcode must be 4–12 chars [A-Za-z0-9_-]", m)
      else if keys.contains sc then (SubmitOutcome.formError "Shortcode already exists", m)
      else submitCreate now origin m sc url validNumber
    else submitCreate now origin m (generateUnique bytes (fun _ => keys) 6 50) url validNumber

/-! ## Concrete platform inputs used in the instances -/

/-- A stand-in for the URL parser at concrete inputs: the string must open with a scheme
(an ASCII letter, then letters, digits, `+`, `-`, `.`) followed by `:`. -/
def schemeParser (u : String) : Bool :=
  match u.data with
  | [] => false
  | c :: rest =>
    c.isAlpha &&
      (match rest.dropWhile (fun d => d.isAlphanum || d == '+' || d == '-' || d == '.') with
       | ':' :: _ => true
       | _ => false)

/-- The `Math.random()` stream that always yields `0`. -/
def zeroRand : ℕ → Rand01 := fun _ => ⟨0, 1, Nat.one_pos⟩

/-- The byte stream that always yields `0`. -/
def zeroBytes : ℕ → ℕ := fun _ => 0

/-- A service state holding one record, under the code `dup1`, with two recorded clicks. -/
def dupStore : UrlService :=
  { urlMappings :=
      [("dup1", { id := 1, longUrl := "https://example.com/a", shortCode := "dup1",
                  createdAt := 0, expiresAt := some 1800000, clicks := 2 })],
    clickData :=
      [("dup1", [{ timestamp := 5, source := "ua", location := "Asia" },
                 { timestamp := 9, source := "ua", location := "Europe" }])],
    nextId := 2 }

/-- A localStorage table holding one record under `dup1`. -/
def dupTable : List (String × Mapping) :=
  [("dup1", { longUrl := "https://example.com/a", createdAt := 0, validMinutes := some 30,
              clicks := 2 })]

/-- A localStorage table whose keys are the six-zero and the eight-zero code. -/
def zeroTable : List (String × Mapping) :=
  [("000000", { longUrl := "https://example.com/a", createdAt := 0, validMinutes := some 30,
                clicks := 0 }),
   ("00000000", { longUrl := "https://example.com/b", createdAt := 0, validMinutes := some 30,
                  clicks := 0 })]

/-! ## Sequences of calls -/

/-- One call on the service, with the platform inputs it consumes. -/
inductive Call where
  | shorten (now : ℤ) (rnd : ℕ → Rand01) (fuel : ℕ) (longUrl : String)
      (validityMinutes : Option JsNum) (customShortCode : Option String)
  | resolve (now clickTime : ℤ) (userAgent : String) (r : Rand01) (shortCode : String)

/-- The state after one call, whether it returned or threw; `none` when the generation loop
does not finish within its fuel. -/
def step (parseUrl : String → Bool) (s : UrlService) : Call → Option UrlService
  | Call.shorten now rnd fuel longUrl v custom =>
    (shortenUrl parseUrl now rnd fuel s longUrl v custom).map Prod.snd
  | Call.resolve now clickTime userAgent r code =>
    some (getUrl now clickTime userAgent r s code).2

/-- The state after a sequence of calls. -/
def run (parseUrl : String → Bool) : UrlService → List Call → Option UrlService
  | s, [] => some s
  | s, call :: rest =>
    match step parseUrl s call with
    | none => none
    | some s1 => run parseUrl s1 rest

/-- Whether a call returned a value. -/
def Result.isOk {ε α : Type} : Result ε α → Bool
  | Result.ok _ => true
  | Result.error _ => false

/-- Whether `call`, made in state `s`, is a `getUrl` on `code` that returns. -/
def isHit (s : UrlService) (code : String) : Call → Bool
  | Call.shorten _ _ _ _ _ _ => false
  | Call.resolve now clickTime userAgent r c =>
    decide (c = code) && (getUrl now clickTime userAgent r s c).1.isOk

/-- The number of `getUrl` calls on `code` that return, in a sequence of calls from `s`. -/
def hits (parseUrl : String → Bool) (code : String) : UrlService → List Call → ℕ
  | _, [] => 0
  | s, call :: rest =>
    (if isHit s code call then 1 else 0) +
      (match step parseUrl s call with
       | none => 0
       | some s1 => hits parseUrl code s1 rest)

/-- The `clicks` field stored under `code`, `0` when the code is absent. -/
def clicksOf (s : UrlService) (code : String) : ℕ :=
  match mapGet s.urlMappings code with
  | some d => d.clicks
  | none => 0

/-- The click-accounting invariant: every stored record has a click list, as long as its
`clicks` field says. -/
def ClicksMatch (s : UrlService) : Prop :=
  ∀ code d, mapGet s.urlMappings code = some d →
    ∃ l, mapGet s.clickData code = some l ∧ d.clicks = l.length

/-- A short session: one create, a resolution of the new code, and a resolution of a code that
was never created. -/
def sampleCalls : List Call :=
  [Call.shorten 1000 zeroRand 0 "https://example.com/page" (some (JsNum.fin 30))
     (some "abc123"),
   Call.resolve 2000 2001 "ua" (zeroRand 0) "abc123",
   Call.resolve 3000 3001 "ua" (zeroRand 0) "zzzz"]

/-- One `createMapping` call with its clock. -/
structure CreateCall where
  now : ℤ
  shortcode : String
  longUrl : String
  validMinutes : Option JsNum

/-- The table after a sequence of `createMapping` calls, successful or not. -/
def runCreate : List (String × Mapping) → List CreateCall → List (String × Mapping)
  | m, [] => m
  | m, call :: rest =>
    runCreate (createMapping call.now m call.shortcode call.longUrl call.validMinutes).2 rest

/-! ## Counting draws and byte values -/

/-- The number of byte values `n` in `0..255` for which `randomShort(1)`, fed the byte `n`,
returns the text `sym`. -/
def bytesMappedTo (sym : String) : ℕ :=
  ((List.range 256).filter fun n => decide (randomShort (fun _ => n) 0 1 = sym)).length

/-- The loop of `generateUnique` together with the number of `randomShort` calls it makes. -/
def generateUniqueCount (bytes : ℕ → ℕ) (getKeys : Unit → List String) (len : ℕ) :
    ℕ → ℕ → String × ℕ
  | 0, pos => (randomShort bytes pos (len + 2), 1)
  | tries + 1, pos =>
    let cand := randomShort bytes pos len
    if !(getKeys ()).contains cand then (cand, 1)
    else
      ((generateUniqueCount bytes getKeys len tries (pos + len)).1,
        (generateUniqueCount bytes getKeys len tries (pos + len)).2 + 1)

/-! ## Well-formed service states -/

/-- The shape of a service state: the two maps list the same keys, each record carries the key
it is stored under, every stored id is below `nextId`, and two keys never share an id. -/
def WellFormed (s : UrlService) : Prop :=
  mapKeys s.urlMappings = mapKeys s.clickData ∧
  (∀ k d, mapGet s.urlMappings k = some d → d.shortCode = k) ∧
  (∀ k d, mapGet s.urlMappings k = some d → d.id < s.nextId) ∧
  (∀ k1 k2 d1 d2, mapGet s.urlMappings k1 = some d1 → mapGet s.urlMappings k2 = some d2 →
    d1.id = d2.id → k1 = k2)

end UrlShortener

/-! ## Properties -/

namespace UrlShortener

/-! ### Maps -/

theorem mapGet_mapSet_same {V : Type} (m : List (String × V)) (c : String) (v : V) :
    mapGet (mapSet m c v) c = some v := by
  induction m with
  | nil => simp [mapSet, mapGet]
  | cons p m ih =>
    obtain ⟨k, w⟩ := p
    by_cases h : k = c
    · simp [mapSet, mapGet, h]
    · simp [mapSet, mapGet, h, ih]

theorem mapGet_mapSet_ne {V : Type} (m : List (String × V)) (c k : String) (v : V)
    (hk : c ≠ k) : mapGet (mapSet m c v) k = mapGet m k := by
  induction m with
  | nil => simp [mapSet, mapGet, hk]
  | cons p m ih =>
    obtain ⟨k0, w⟩ := p
    by_cases h : k0 = c
    · subst h
      simp [mapSet, mapGet, hk]
    · by_cases h2 : k0 = k
      · subst h2
        simp [mapSet, mapGet, h]
      · simp [mapSet, mapGet, h, h2, ih]

theorem mapGet_eq_none_iff {V : Type} (m : List (String × V)) (c : String) :
    mapGet m c = none ↔ c ∉ mapKeys m := by
  induction m with
  | nil => simp [mapGet, mapKeys]
  | cons p m ih =>
    obtain ⟨k, w⟩ := p
    by_cases h : k = c
    · simp [mapGet, mapKeys, h]
    · have h2 : ¬ c = k := fun e => h e.symm
      simpa [mapGet, mapKeys, h, h2] using ih

theorem mapHas_eq_false_iff {V : Type} (m : List (String × V)) (c : String) :
    mapHas m c = false ↔ c ∉ mapKeys m := by
  rw [← mapGet_eq_none_iff]
  cases h : mapGet m c <;> simp [mapHas, h]

theorem mapHas_eq_true_iff {V : Type} (m : List (String × V)) (c : String) :
    mapHas m c = true ↔ c ∈ mapKeys m := by
  have h := mapHas_eq_false_iff m c
  cases hb : mapHas m c
  · simpa [hb] using h
  · simpa [hb] using h

theorem mapSet_of_not_has {V : Type} (m : List (String × V)) (c : String) (v : V)
    (h : mapHas m c = false) : mapSet m c v = m ++ [(c, v)] := by
  induction m with
  | nil => simp [mapSet]
  | cons p m ih =>
    obtain ⟨k, w⟩ := p
    by_cases hk : k = c
    · simp [mapHas, mapGet, hk] at h
    · have h2 : mapHas m c = false := by simpa [mapHas, mapGet, hk] using h
      simp [mapSet, hk, ih h2]

theorem mapKeys_mapSet_of_has {V : Type} (m : List (String × V)) (c : String) (v : V)
    (h : mapHas m c = true) : mapKeys (mapSet m c v) = mapKeys m := by
  induction m with
  | nil => simp [mapHas, mapGet] at h
  | cons p m ih =>
    obtain ⟨k, w⟩ := p
    by_cases hk : k = c
    · simp [mapSet, mapKeys, hk]
    · have h2 : mapHas m c = true := by simpa [mapHas, mapGet, hk] using h
      have := ih h2
      simp [mapSet, mapKeys, hk] at this ⊢
      exact this

theorem mapGet_append_of_has {V : Type} (m : List (String × V)) (c k : String) (v w : V)
    (h : mapGet m k = some w) : mapGet (m ++ [(c, v)]) k = some w := by
  induction m with
  | nil => simp [mapGet] at h
  | cons p m ih =>
    obtain ⟨k0, w0⟩ := p
    by_cases hk : k0 = k
    · simpa [mapGet, hk] using h
    · have h2 : mapGet m k = some w := by simpa [mapGet, hk] using h
      simp [mapGet, hk, ih h2]

theorem nodup_mapKeys_append {V : Type} (m : List (String × V)) (c : String) (v : V)
    (hm : (mapKeys m).Nodup) (h : mapHas m c = false) : (mapKeys (m ++ [(c, v)])).Nodup := by
  have hc : c ∉ mapKeys m := (mapHas_eq_false_iff m c).1 h
  simp only [mapKeys, List.map_append, List.map_cons, List.map_nil] at hc ⊢
  rw [List.nodup_append]
  refine ⟨hm, List.nodup_singleton c, ?_⟩
  intro a ha hb
  simp at hb
  exact hc (hb ▸ ha)

/-! ### Creation -/

theorem generateLoop_fresh (m : List (String × UrlData)) (rnd : ℕ → Rand01) (fuel pos : ℕ)
    (code : String) (h : generateLoop m rnd fuel pos = some code) : mapHas m code = false := by
  induction fuel generalizing pos with
  | zero => simp [generateLoop] at h
  | succ fuel ih =>
    simp only [generateLoop] at h
    by_cases hc : mapHas m (generateShortCode rnd pos) = true
    · rw [if_pos hc] at h
      exact ih _ h
    · rw [if_neg hc] at h
      simp only [Option.some.injEq] at h
      subst h
      simpa using hc

/-- Every return of `shortenUrl` without an error went through `insertRecord` with a code that
was not a key of `urlMappings`. -/
theorem shortenUrl_ok_inv (parseUrl : String → Bool) (now : ℤ) (rnd : ℕ → Rand01) (fuel : ℕ)
    (s : UrlService) (longUrl : String) (v : Option JsNum) (custom : Option String)
    (r : ShortenResult) (s1 : UrlService)
    (h : shortenUrl parseUrl now rnd fuel s longUrl v custom = some (Result.ok r, s1)) :
    ∃ code, mapHas s.urlMappings code = false ∧
      (custom = some code ∧ code ≠ "" ∨
        (custom = none ∨ custom = some "") ∧ generateLoop s.urlMappings rnd fuel 0 = some code) ∧
      insertRecord now s longUrl (v.getD (JsNum.fin 30)) code = (Result.ok r, s1) := by
  unfold shortenUrl at h
  simp only at h
  split_ifs at h with h1 h2
  · simp at h
  · simp at h
  cases custom with
  | none =>
    simp only [Option.map_eq_some'] at h
    obtain ⟨code, hg, hi⟩ := h
    exact ⟨code, generateLoop_fresh _ _ _ _ _ hg, Or.inr ⟨Or.inl rfl, hg⟩, hi⟩
  | some c =>
    simp only at h
    split_ifs at h with h3 h4 h5
    · simp at h
    · simp at h
    · simp only [Option.some.injEq] at h
      exact ⟨c, by simpa using h5, Or.inl ⟨rfl, h3⟩, h⟩
    · simp only [Option.map_eq_some'] at h
      obtain ⟨code, hg, hi⟩ := h
      have hc : c = "" := by simpa using h3
      exact ⟨code, generateLoop_fresh _ _ _ _ _ hg, Or.inr ⟨Or.inr (by rw [hc]), hg⟩, hi⟩


/-- A call of `shortenUrl` that throws leaves the state as it was. -/
theorem shortenUrl_error_state (parseUrl : String → Bool) (now : ℤ) (rnd : ℕ → Rand01)
    (fuel : ℕ) (s : UrlService) (longUrl : String) (v : Option JsNum) (custom : Option String)
    (e : ServiceError) (s1 : UrlService)
    (h : shortenUrl parseUrl now rnd fuel s longUrl v custom = some (Result.error e, s1)) :
    s1 = s := by
  unfold shortenUrl at h
  simp only at h
  split_ifs at h with h1 h2
  · simp only [Option.some.injEq, Prod.mk.injEq] at h
    exact h.2.symm
  · simp only [Option.some.injEq, Prod.mk.injEq] at h
    exact h.2.symm
  cases custom with
  | none =>
    simp only [Option.map_eq_some'] at h
    obtain ⟨code, _, hi⟩ := h
    simp [insertRecord] at hi
  | some c =>
    simp only at h
    split_ifs at h with h3 h4 h5
    · simp only [Option.some.injEq, Prod.mk.injEq] at h
      exact h.2.symm
    · simp only [Option.some.injEq, Prod.mk.injEq] at h
      exact h.2.symm
    · simp [insertRecord] at h
    · simp only [Option.map_eq_some'] at h
      obtain ⟨code, _, hi⟩ := h
      simp [insertRecord] at hi

theorem getUrl_keys (now clickTime : ℤ) (userAgent : String) (r : Rand01) (s : UrlService)
    (code : String) :
    mapKeys (getUrl now clickTime userAgent r s code).2.urlMappings = mapKeys s.urlMappings := by
  unfold getUrl
  cases hg : mapGet s.urlMappings code with
  | none => simp
  | some d =>
    have hh : mapHas s.urlMappings code = true := by simp [mapHas, hg]
    simp only
    split_ifs with h1
    · rfl
    · cases hc : mapGet s.clickData code with
      | none => simp [hc, mapKeys_mapSet_of_has _ _ _ hh]
      | some l => simp [hc, mapKeys_mapSet_of_has _ _ _ hh]

theorem createMapping_ok_inv (now : ℤ) (m : List (String × Mapping)) (sc longUrl : String)
    (v : Option JsNum) (r : Mapping) (m1 : List (String × Mapping))
    (h : createMapping now m sc longUrl v = (Result.ok r, m1)) :
    mapHas m sc = false ∧ m1 = m ++ [(sc, r)] := by
  unfold createMapping at h
  split_ifs at h with h1
  · simp at h
  · have hf : mapHas m sc = false := by
      simp only [objTruthy, Bool.or_eq_true, not_or] at h1
      simpa using h1.1
    simp only [Prod.mk.injEq, Result.ok.injEq] at h
    obtain ⟨hr, hm⟩ := h
    subst hr
    exact ⟨hf, by rw [← hm, mapSet_of_not_has _ _ _ hf]⟩

theorem createMapping_error_state (now : ℤ) (m : List (String × Mapping)) (sc longUrl : String)
    (v : Option JsNum) (e : StoreError) (m1 : List (String × Mapping))
    (h : createMapping now m sc longUrl v = (Result.error e, m1)) : m1 = m := by
  unfold createMapping at h
  split_ifs at h with h1
  · simp only [Prod.mk.injEq] at h
    exact h.2.symm
  · simp at h

theorem mapKeys_append_single {V : Type} (m : List (String × V)) (c : String) (v : V) :
    mapKeys (m ++ [(c, v)]) = mapKeys m ++ [c] := by
  simp [mapKeys]

theorem shortenUrl_nodup (parseUrl : String → Bool) (now : ℤ) (rnd : ℕ → Rand01)
    (fuel : ℕ) (s : UrlService) (longUrl : String) (v : Option JsNum) (custom : Option String)
    (res : Result ServiceError ShortenResult) (s1 : UrlService)
    (h : shortenUrl parseUrl now rnd fuel s longUrl v custom = some (res, s1))
    (hs : (mapKeys s.urlMappings).Nodup) : (mapKeys s1.urlMappings).Nodup := by
  cases res with
  | error e => rw [shortenUrl_error_state _ _ _ _ _ _ _ _ _ _ h]; exact hs
  | ok r =>
    obtain ⟨code, hf, _, hi⟩ := shortenUrl_ok_inv _ _ _ _ _ _ _ _ _ _ h
    simp only [insertRecord, Prod.mk.injEq] at hi
    rw [← hi.2]
    simp only
    rw [mapSet_of_not_has _ _ _ hf]
    exact nodup_mapKeys_append _ _ _ hs hf

theorem step_nodup (parseUrl : String → Bool) (s s1 : UrlService) (call : Call)
    (h : step parseUrl s call = some s1) (hs : (mapKeys s.urlMappings).Nodup) :
    (mapKeys s1.urlMappings).Nodup := by
  cases call with
  | shorten now rnd fuel longUrl v custom =>
    simp only [step, Option.map_eq_some'] at h
    obtain ⟨⟨res, s2⟩, h1, h2⟩ := h
    simp only at h2
    subst h2
    exact shortenUrl_nodup _ _ _ _ _ _ _ _ _ _ h1 hs
  | resolve now clickTime userAgent r code =>
    simp only [step, Option.some.injEq] at h
    rw [← h, getUrl_keys]
    exact hs

theorem run_nodup (parseUrl : String → Bool) (calls : List Call) (s s1 : UrlService)
    (h : run parseUrl s calls = some s1) (hs : (mapKeys s.urlMappings).Nodup) :
    (mapKeys s1.urlMappings).Nodup := by
  induction calls generalizing s with
  | nil =>
    simp only [run, Option.some.injEq] at h
    rw [← h]; exact hs
  | cons call rest ih =>
    simp only [run] at h
    cases hstep : step parseUrl s call with
    | none => simp [hstep] at h
    | some s2 =>
      rw [hstep] at h
      exact ih s2 h (step_nodup _ _ _ _ hstep hs)

theorem runCreate_nodup (calls : List CreateCall) (m : List (String × Mapping))
    (hm : (mapKeys m).Nodup) : (mapKeys (runCreate m calls)).Nodup := by
  induction calls generalizing m with
  | nil => simpa [runCreate] using hm
  | cons call rest ih =>
    simp only [runCreate]
    apply ih
    cases hc : createMapping call.now m call.shortcode call.longUrl call.validMinutes with
    | mk res m1 =>
      cases res with
      | error e => rw [createMapping_error_state _ _ _ _ _ _ _ hc]; exact hm
      | ok r =>
        obtain ⟨hf, hm1⟩ := createMapping_ok_inv _ _ _ _ _ _ _ hc
        simp only
        rw [hm1]
        exact nodup_mapKeys_append _ _ _ hm hf

/-- A request with a parsable URL, an accepted validity and a well-formed custom code that is
not yet a key goes through `insertRecord`. -/
theorem shortenUrl_custom_ok (parseUrl : String → Bool) (now : ℤ) (rnd : ℕ → Rand01)
    (fuel : ℕ) (s : UrlService) (longUrl : String) (v : Option JsNum) (c : String)
    (hp : parseUrl longUrl = true)
    (hv : ((v.getD (JsNum.fin 30)).truthy &&
      ((v.getD (JsNum.fin 30)).isNaN || (v.getD (JsNum.fin 30)).le0)) = false)
    (hc : c ≠ "") (hm : matchesAtLeast4 c = true) (hf : mapHas s.urlMappings c = false) :
    shortenUrl parseUrl now rnd fuel s longUrl v (some c) =
      some (insertRecord now s longUrl (v.getD (JsNum.fin 30)) c) := by
  unfold shortenUrl
  simp [hp, hv, hc, hm, hf]

theorem validity30_accepted :
    ((JsNum.fin 30).truthy && ((JsNum.fin 30).isNaN || (JsNum.fin 30).le0)) = false := by
  simp [JsNum.truthy, JsNum.isNaN, JsNum.le0]

/-- C1 (uniqueness).  A successful `shortenUrl` (custom or generated code) and a successful
`createMapping` store the new record under a code that was not a key before the call, leave
every earlier entry as it was and add exactly one key (the last entry of the `Map`); so the
keys stay pairwise distinct, and they are pairwise distinct in every state reached from the
empty service by any sequence of calls, and in every table reached from the empty table by
`createMapping` calls. -/
theorem create_keeps_codes_unique (parseUrl : String → Bool) :
    (∀ (now : ℤ) (rnd : ℕ → Rand01) (fuel : ℕ) (s : UrlService) (longUrl : String)
        (v : Option JsNum) (custom : Option String) (r : ShortenResult) (s1 : UrlService),
        shortenUrl parseUrl now rnd fuel s longUrl v custom = some (Result.ok r, s1) →
          mapHas s.urlMappings r.data.shortCode = false ∧
          s1.urlMappings = s.urlMappings ++ [(r.data.shortCode, r.data)] ∧
          mapKeys s1.urlMappings = mapKeys s.urlMappings ++ [r.data.shortCode] ∧
          (∀ k d, mapGet s.urlMappings k = some d → mapGet s1.urlMappings k = some d) ∧
          ((mapKeys s.urlMappings).Nodup → (mapKeys s1.urlMappings).Nodup)) ∧
    (∀ (now : ℤ) (m : List (String × Mapping)) (sc longUrl : String) (v : Option JsNum)
        (r : Mapping) (m1 : List (String × Mapping)),
        createMapping now m sc longUrl v = (Result.ok r, m1) →
          mapHas m sc = false ∧
          mapGet m1 sc = some r ∧
          (mapKeys m1).Perm (sc :: mapKeys m) ∧
          (∀ k d, mapGet m k = some d → mapGet m1 k = some d) ∧
          ((mapKeys m).Nodup → (mapKeys m1).Nodup)) ∧
    (∀ (calls : List Call) (s : UrlService),
        run parseUrl UrlService.new calls = some s → (mapKeys s.urlMappings).Nodup) ∧
    (∀ calls : List CreateCall, (mapKeys (runCreate [] calls)).Nodup) := by
  refine ⟨?_, ?_, ?_, ?_⟩
  · intro now rnd fuel s longUrl v custom r s1 h
    obtain ⟨code, hf, _, hi⟩ := shortenUrl_ok_inv _ _ _ _ _ _ _ _ _ _ h
    simp only [insertRecord, Prod.mk.injEq, Result.ok.injEq] at hi
    obtain ⟨hr, hs⟩ := hi
    subst hr
    subst hs
    simp only
    have hm := mapSet_of_not_has s.urlMappings code
      { id := s.nextId, longUrl := longUrl, shortCode := code, createdAt := now,
        expiresAt := newDate (JsNum.add (JsNum.fin now)
          (JsNum.mul (v.getD (JsNum.fin 30)) (JsNum.fin 60000))), clicks := 0 } hf
    rw [hm]
    refine ⟨hf, rfl, mapKeys_append_single _ _ _, ?_, ?_⟩
    · intro k d hk
      exact mapGet_append_of_has _ _ _ _ _ hk
    · intro hn
      exact nodup_mapKeys_append _ _ _ hn hf
  · intro now m sc longUrl v r m1 h
    obtain ⟨hf, hm⟩ := createMapping_ok_inv _ _ _ _ _ _ _ h
    subst hm
    refine ⟨hf, ?_, ?_, ?_, ?_⟩
    · rw [← mapSet_of_not_has _ _ _ hf, mapGet_mapSet_same]
    · rw [mapKeys_append_single]
      exact List.perm_append_singleton sc (mapKeys m)
    · intro k d hk
      exact mapGet_append_of_has _ _ _ _ _ hk
    · intro hn
      exact nodup_mapKeys_append _ _ _ hn hf
  · intro calls s h
    exact run_nodup parseUrl calls _ _ h (by simp [UrlService.new, mapKeys])
  · intro calls
    exact runCreate_nodup calls [] (by simp [mapKeys])

/-- An instance of C1: adding `abc123` to a service, and to a table, that already holds
`dup1`. -/
theorem create_keeps_codes_unique_witness :
    (∃ r s1,
      shortenUrl schemeParser 1000 zeroRand 0 dupStore "https://example.com/page"
        (some (JsNum.fin 30)) (some "abc123") = some (Result.ok r, s1) ∧
      mapHas dupStore.urlMappings r.data.shortCode = false ∧
      mapKeys s1.urlMappings = mapKeys dupStore.urlMappings ++ [r.data.shortCode] ∧
      mapGet s1.urlMappings "dup1" = mapGet dupStore.urlMappings "dup1" ∧
      (mapKeys s1.urlMappings).Nodup) ∧
    (∃ r m1,
      createMapping 1000 dupTable "abc123" "https://example.com/page" none =
        (Result.ok r, m1) ∧
      mapHas dupTable "abc123" = false ∧ mapGet m1 "abc123" = some r ∧
      mapGet m1 "dup1" = mapGet dupTable "dup1" ∧ (mapKeys m1).Nodup) :=
  have h0 := shortenUrl_custom_ok schemeParser 1000 zeroRand 0 dupStore
    "https://example.com/page" (some (JsNum.fin 30)) "abc123" (by decide) validity30_accepted
    (by decide) (by decide) (by decide)
  have h := (create_keeps_codes_unique schemeParser).1 1000 zeroRand 0 dupStore
    "https://example.com/page" (some (JsNum.fin 30)) (some "abc123") _ _ h0
  have c0 : createMapping 1000 dupTable "abc123" "https://example.com/page" none =
      (Result.ok (Mapping.mk "https://example.com/page" 1000 (some 30) 0),
        mapSet dupTable "abc123" (Mapping.mk "https://example.com/page" 1000 (some 30) 0)) := by
    have ho : objTruthy dupTable "abc123" = false := by decide
    simp [createMapping, ho, jsonNum]
  have c := (create_keeps_codes_unique schemeParser).2.1 1000 dupTable "abc123"
    "https://example.com/page" none _ _ c0
  ⟨⟨_, _, h0, h.1, h.2.2.1, h.2.2.2.1 "dup1" _ rfl, h.2.2.2.2 (by decide)⟩,
   ⟨_, _, c0, c.1, c.2.1, c.2.2.2.1 "dup1" _ rfl, c.2.2.2.2 (by decide)⟩⟩

/-! ### Conflict -/

/-- C2 (conflict).  When the store already holds a record under `c`, a `shortenUrl` that
requests `c` never succeeds and returns the state it was given (records, click lists and
`nextId` as before); when the rest of the request is acceptable (URL parses, validity passes,
`c` is well formed) the error is the code-conflict one.  In particular a second create with the
arguments of a first, successful create with custom code `c` is rejected with the conflict
error.  `createMapping(c, ..)` on a table holding `c` throws `SHORTCODE_EXISTS` and writes
nothing. -/
theorem conflict_leaves_store (parseUrl : String → Bool) :
    (∀ (now : ℤ) (rnd : ℕ → Rand01) (fuel : ℕ) (s : UrlService) (longUrl : String)
        (v : Option JsNum) (c : String), mapHas s.urlMappings c = true → c ≠ "" →
        (∃ e, shortenUrl parseUrl now rnd fuel s longUrl v (some c) = some (Result.error e, s)) ∧
        (parseUrl longUrl = true →
          ((v.getD (JsNum.fin 30)).truthy &&
            ((v.getD (JsNum.fin 30)).isNaN || (v.getD (JsNum.fin 30)).le0)) = false →
          matchesAtLeast4 c = true →
          shortenUrl parseUrl now rnd fuel s longUrl v (some c) =
            some (Result.error ServiceError.codeConflict, s))) ∧
    (∀ (now now2 : ℤ) (rnd rnd2 : ℕ → Rand01) (fuel fuel2 : ℕ) (s s1 : UrlService)
        (longUrl : String) (v : Option JsNum) (c : String) (r : ShortenResult), c ≠ "" →
        shortenUrl parseUrl now rnd fuel s longUrl v (some c) = some (Result.ok r, s1) →
        shortenUrl parseUrl now2 rnd2 fuel2 s1 longUrl v (some c) =
          some (Result.error ServiceError.codeConflict, s1)) ∧
    (∀ (now : ℤ) (m : List (String × Mapping)) (c longUrl : String) (v : Option JsNum),
        mapHas m c = true →
        createMapping now m c longUrl v = (Result.error StoreError.shortcodeExists, m)) := by
  refine ⟨?_, ?_, ?_⟩
  · intro now rnd fuel s longUrl v c hh hc
    constructor
    · unfold shortenUrl
      simp only
      split_ifs with h1 h2 h3
      · exact ⟨_, rfl⟩
      · exact ⟨_, rfl⟩
      · exact ⟨_, rfl⟩
      · exact ⟨_, rfl⟩
    · intro hp hv hm
      unfold shortenUrl
      simp [hp, hv, hc, hm, hh]
  · intro now now2 rnd rnd2 fuel fuel2 s s1 longUrl v c r hc h
    unfold shortenUrl at h
    simp only at h
    split_ifs at h with h1 h2 h3 h4
    · simp at h
    · simp at h
    · simp at h
    · simp at h
    · simp only [insertRecord, Option.some.injEq, Prod.mk.injEq] at h
      have hh : mapHas s1.urlMappings c = true := by
        rw [← h.2]
        simp [mapHas, mapGet_mapSet_same]
      unfold shortenUrl
      have h1b : parseUrl longUrl = true := by simpa using h1
      have h2b := Bool.eq_false_iff.2 h2
      have h3b : matchesAtLeast4 c = true := by simpa using h3
      simp [h1b, h2b, hc, h3b, hh]
  · intro now m c longUrl v hh
    simp [createMapping, objTruthy, hh]

/-- An instance of C2 on the store holding `dup1` with two clicks, and on the table holding
`dup1`. -/
theorem conflict_leaves_store_witness :
    shortenUrl schemeParser 77 zeroRand 3 dupStore "https://example.com/b"
        (some (JsNum.fin 30)) (some "dup1") =
      some (Result.error ServiceError.codeConflict, dupStore) ∧
    createMapping 77 dupTable "dup1" "https://example.com/b" none =
      (Result.error StoreError.shortcodeExists, dupTable) :=
  ⟨((conflict_leaves_store schemeParser).1 77 zeroRand 3 dupStore "https://example.com/b"
      (some (JsNum.fin 30)) "dup1" (by decide) (by decide)).2 (by decide) validity30_accepted
      (by decide),
   (conflict_leaves_store schemeParser).2.2 77 dupTable "dup1" "https://example.com/b" none
      (by decide)⟩

/-! ### Expiry -/

theorem truncQ_intCast (z : ℤ) : truncQ (z : ℚ) = z := by
  unfold truncQ
  split_ifs <;> simp

theorem newDate_intCast (z : ℤ) :
    newDate (JsNum.fin (z : ℚ)) = if |z| > maxTime then none else some z := by
  unfold newDate
  have h : (|(z : ℚ)| > (maxTime : ℚ)) ↔ |z| > maxTime := by
    rw [← Int.cast_abs]
    exact Int.cast_lt
  simp only [h, truncQ_intCast]

theorem getUrl_expired_iff (now clickTime : ℤ) (userAgent : String) (r : Rand01)
    (s : UrlService) (code : String) :
    (getUrl now clickTime userAgent r s code).1 = Result.error ServiceError.expired ↔
      ∃ d, mapGet s.urlMappings code = some d ∧
        JsNum.gt (JsNum.fin now) (dateValue d.expiresAt) = true := by
  unfold getUrl
  cases hg : mapGet s.urlMappings code with
  | none => simp
  | some d =>
    simp only
    split_ifs with h1
    · simp [h1]
    · cases hc : mapGet s.clickData code with
      | none => simp [hc, h1]
      | some l => simp [hc, h1]

theorem getUrl_notFound_iff (now clickTime : ℤ) (userAgent : String) (r : Rand01)
    (s : UrlService) (code : String) :
    (getUrl now clickTime userAgent r s code).1 = Result.error ServiceError.notFound ↔
      mapGet s.urlMappings code = none := by
  unfold getUrl
  cases hg : mapGet s.urlMappings code with
  | none => simp
  | some d =>
    simp only
    split_ifs with h1
    · simp
    · cases hc : mapGet s.clickData code with
      | none => simp [hc]
      | some l => simp [hc]

/-- The expiry date `shortenUrl` computes at clock `t0` for `v` whole minutes. -/
theorem expiresAt_wholeMinutes (t0 : ℤ) (v : ℕ) :
    newDate (JsNum.add (JsNum.fin t0) (JsNum.mul (JsNum.fin v) (JsNum.fin 60000))) =
      if |t0 + v * 60000| > maxTime then none else some (t0 + v * 60000) := by
  have h : JsNum.add (JsNum.fin t0) (JsNum.mul (JsNum.fin v) (JsNum.fin 60000)) =
      JsNum.fin ((t0 + v * 60000 : ℤ) : ℚ) := by
    simp [JsNum.add, JsNum.mul]
  rw [h, newDate_intCast]

/-- The comparison `now > expiresAt` for a record made at `t0 ≥ 0` with `v` whole minutes. -/
theorem gt_expiresAt_iff (now t0 : ℤ) (v : ℕ) (h0 : 0 ≤ t0) (hn : now ≤ maxTime) :
    JsNum.gt (JsNum.fin now) (dateValue
      (newDate (JsNum.add (JsNum.fin t0) (JsNum.mul (JsNum.fin v) (JsNum.fin 60000))))) = true ↔
      now > t0 + v * 60000 := by
  rw [expiresAt_wholeMinutes]
  have hv : (0 : ℤ) ≤ (v : ℤ) * 60000 := by positivity
  have hmax : (0 : ℤ) < maxTime := by decide
  split_ifs with hbig
  · have hx : t0 + (v : ℤ) * 60000 > maxTime := by
      rcases lt_abs.1 hbig with h | h
      · exact h
      · omega
    simp only [dateValue, JsNum.gt]
    constructor
    · intro h; exact absurd h (by simp)
    · intro h; omega
  · simp only [dateValue, JsNum.gt, decide_eq_true_eq, gt_iff_lt]
    exact Int.cast_lt

/-- The successful path of `getUrl`. -/
theorem getUrl_ok (now clickTime : ℤ) (userAgent : String) (r : Rand01) (s : UrlService)
    (code : String) (d : UrlData) (l : List ClickInfo)
    (hd : mapGet s.urlMappings code = some d)
    (he : JsNum.gt (JsNum.fin now) (dateValue d.expiresAt) = false)
    (hl : mapGet s.clickData code = some l) :
    getUrl now clickTime userAgent r s code =
      (Result.ok { d with clicks := d.clicks + 1 },
        { urlMappings := mapSet s.urlMappings code { d with clicks := d.clicks + 1 },
          clickData := mapSet s.clickData code
            (l ++ [{ timestamp := clickTime, source := userAgent,
                     location := getCoarseLocation r }]),
          nextId := s.nextId }) := by
  unfold getUrl
  simp [hd, he, hl]

/-- What a successful `shortenUrl` leaves in the two maps for the new code. -/
theorem shortenUrl_ok_stored (parseUrl : String → Bool) (now : ℤ) (rnd : ℕ → Rand01)
    (fuel : ℕ) (s : UrlService) (longUrl : String) (v : Option JsNum) (custom : Option String)
    (r : ShortenResult) (s1 : UrlService)
    (h : shortenUrl parseUrl now rnd fuel s longUrl v custom = some (Result.ok r, s1)) :
    mapGet s1.urlMappings r.data.shortCode = some r.data ∧
    mapGet s1.clickData r.data.shortCode = some [] ∧
    r.data.longUrl = longUrl ∧ r.data.createdAt = now ∧ r.data.clicks = 0 ∧
    r.data.id = s.nextId ∧ s1.nextId = s.nextId + 1 ∧
    r.data.expiresAt = newDate (JsNum.add (JsNum.fin now)
      (JsNum.mul (v.getD (JsNum.fin 30)) (JsNum.fin 60000))) := by
  obtain ⟨code, _, _, hi⟩ := shortenUrl_ok_inv _ _ _ _ _ _ _ _ _ _ h
  simp only [insertRecord, Prod.mk.injEq, Result.ok.injEq] at hi
  obtain ⟨hr, hs⟩ := hi
  subst hr
  subst hs
  simp [mapGet_mapSet_same]

/-- The answer of `isExpired` for a record whose validity is a whole number of minutes. -/
theorem isExpired_iff (now : ℤ) (m : Mapping) (v : ℤ)
    (hv : m.validMinutes.getD 30 = (v : ℚ)) :
    isExpired now (some m) = true ↔ now > m.createdAt + v * 60000 := by
  unfold isExpired
  simp only [decide_eq_true_eq, gt_iff_lt, Int.cast_sub, hv]
  have h60 : (0 : ℚ) < 60 * 1000 := by norm_num
  rw [lt_div_iff₀ h60]
  have hc : (m.createdAt + v * 60000 < now) ↔
      ((m.createdAt : ℚ) + (v : ℚ) * 60000 < (now : ℚ)) := by
    rw [← Int.cast_lt (R := ℚ)]
    push_cast
    rfl
  rw [hc]
  constructor
  · intro h; linarith
  · intro h; linarith

/-- C3 (expiry boundary).  Clock values are valid dates not before the epoch and the validity
is a whole number of minutes, the range on which the embedding computes what the doubles of the
source compute.  For a record whose expiry date was computed at `t0` from `v` minutes, `getUrl`
at clock `now` throws the expired error exactly when `now > t0 + v * 60000`; the records
`shortenUrl` makes are of that shape; with 30 minutes a resolution at `t0 + 1800000` returns
and one at `t0 + 1800001` throws the expired error.  `isExpired` answers true exactly when
`now > createdAt + validMinutes * 60000`, with the same two boundary cases. -/
theorem expiry_boundary (parseUrl : String → Bool) :
    (∀ (now clickTime : ℤ) (userAgent : String) (r : Rand01) (s : UrlService) (code : String)
        (d : UrlData) (t0 : ℤ) (v : ℕ), mapGet s.urlMappings code = some d →
        d.expiresAt =
          newDate (JsNum.add (JsNum.fin t0) (JsNum.mul (JsNum.fin v) (JsNum.fin 60000))) →
        0 ≤ t0 → now ≤ maxTime →
        ((getUrl now clickTime userAgent r s code).1 = Result.error ServiceError.expired ↔
          now > t0 + v * 60000)) ∧
    (∀ (t0 : ℤ) (rnd : ℕ → Rand01) (fuel : ℕ) (s : UrlService) (longUrl : String) (v : ℕ)
        (custom : Option String) (res : ShortenResult) (s1 : UrlService)
        (now clickTime : ℤ) (userAgent : String) (r : Rand01),
        shortenUrl parseUrl t0 rnd fuel s longUrl (some (JsNum.fin v)) custom =
          some (Result.ok res, s1) →
        0 ≤ t0 → now ≤ maxTime →
        ((getUrl now clickTime userAgent r s1 res.data.shortCode).1 =
            Result.error ServiceError.expired ↔ now > t0 + v * 60000)) ∧
    (∀ (t0 : ℤ) (rnd : ℕ → Rand01) (fuel : ℕ) (s : UrlService) (longUrl : String)
        (custom : Option String) (res : ShortenResult) (s1 : UrlService)
        (clickTime : ℤ) (userAgent : String) (r : Rand01),
        shortenUrl parseUrl t0 rnd fuel s longUrl (some (JsNum.fin 30)) custom =
          some (Result.ok res, s1) →
        0 ≤ t0 → t0 + 1800001 ≤ maxTime →
        (getUrl (t0 + 1800000) clickTime userAgent r s1 res.data.shortCode).1 =
            Result.ok { res.data with clicks := 1 } ∧
        (getUrl (t0 + 1800001) clickTime userAgent r s1 res.data.shortCode).1 =
            Result.error ServiceError.expired) ∧
    (∀ (now : ℤ) (m : Mapping) (v : ℤ), m.validMinutes.getD 30 = (v : ℚ) →
        0 ≤ m.createdAt → m.createdAt ≤ maxTime → 0 ≤ now → now ≤ maxTime →
        (isExpired now (some m) = true ↔ now > m.createdAt + v * 60000)) ∧
    (∀ (t0 : ℤ) (longUrl : String) (clicks : ℕ), 0 ≤ t0 → t0 + 1800001 ≤ maxTime →
        isExpired (t0 + 1800000)
            (some { longUrl := longUrl, createdAt := t0, validMinutes := some 30,
                    clicks := clicks }) = false ∧
        isExpired (t0 + 1800001)
            (some { longUrl := longUrl, createdAt := t0, validMinutes := some 30,
                    clicks := clicks }) = true) := by
  have hA : ∀ (now clickTime : ℤ) (userAgent : String) (r : Rand01) (s : UrlService)
      (code : String) (d : UrlData) (t0 : ℤ) (v : ℕ), mapGet s.urlMappings code = some d →
      d.expiresAt =
        newDate (JsNum.add (JsNum.fin t0) (JsNum.mul (JsNum.fin v) (JsNum.fin 60000))) →
      0 ≤ t0 → now ≤ maxTime →
      ((getUrl now clickTime userAgent r s code).1 = Result.error ServiceError.expired ↔
        now > t0 + v * 60000) := by
    intro now clickTime userAgent r s code d t0 v hd he h0 hn
    rw [getUrl_expired_iff, ← gt_expiresAt_iff now t0 v h0 hn, ← he]
    constructor
    · rintro ⟨d1, hd1, hg⟩
      rw [hd] at hd1
      cases hd1
      exact hg
    · intro hg
      exact ⟨d, hd, hg⟩
  have hB : ∀ (t0 : ℤ) (rnd : ℕ → Rand01) (fuel : ℕ) (s : UrlService) (longUrl : String)
      (v : ℕ) (custom : Option String) (res : ShortenResult) (s1 : UrlService)
      (now clickTime : ℤ) (userAgent : String) (r : Rand01),
      shortenUrl parseUrl t0 rnd fuel s longUrl (some (JsNum.fin v)) custom =
        some (Result.ok res, s1) →
      0 ≤ t0 → now ≤ maxTime →
      ((getUrl now clickTime userAgent r s1 res.data.shortCode).1 =
          Result.error ServiceError.expired ↔ now > t0 + v * 60000) := by
    intro t0 rnd fuel s longUrl v custom res s1 now clickTime userAgent r h h0 hn
    obtain ⟨hd, _, _, _, _, _, _, he⟩ := shortenUrl_ok_stored _ _ _ _ _ _ _ _ _ _ h
    exact hA now clickTime userAgent r s1 _ _ t0 v hd he h0 hn
  refine ⟨hA, hB, ?_, ?_, ?_⟩
  · intro t0 rnd fuel s longUrl custom res s1 clickTime userAgent r h h0 hn
    have h30 : shortenUrl parseUrl t0 rnd fuel s longUrl (some (JsNum.fin ((30 : ℕ) : ℚ)))
        custom = some (Result.ok res, s1) := by
      simpa using h
    obtain ⟨hd, hl, _, _, hc, _, _, he⟩ := shortenUrl_ok_stored _ _ _ _ _ _ _ _ _ _ h30
    constructor
    · have hno : JsNum.gt (JsNum.fin ((t0 + 1800000 : ℤ) : ℚ))
          (dateValue res.data.expiresAt) = false := by
        rw [he]
        have := gt_expiresAt_iff (t0 + 1800000) t0 30 h0 (by omega)
        simp only [Option.getD_some] at this ⊢
        rw [Bool.eq_false_iff, ne_eq, this]
        norm_num
      rw [getUrl_ok _ _ _ _ _ _ _ _ hd hno hl]
      simp [hc]
    · rw [hB t0 rnd fuel s longUrl 30 custom res s1 (t0 + 1800001) clickTime userAgent r h30 h0
        hn]
      norm_num
  · intro now m v hv _ _ _ _
    exact isExpired_iff now m v hv
  · intro t0 longUrl clicks _ _
    constructor
    · rw [Bool.eq_false_iff, ne_eq, isExpired_iff _ _ 30 (by simp)]
      simp
    · rw [isExpired_iff _ _ 30 (by simp)]
      simp

/-- An instance of C3: a 30-minute record made at clock 1000 resolves at 1801000 and is
expired at 1801001, in the service and, for the table record, by `isExpired`. -/
theorem expiry_boundary_witness :
    (∃ res s1,
      shortenUrl schemeParser 1000 zeroRand 0 UrlService.new "https://example.com/page"
        (some (JsNum.fin 30)) (some "abc123") = some (Result.ok res, s1) ∧
      (getUrl (1000 + 1800000) 1801000 "ua" (zeroRand 0) s1 res.data.shortCode).1 =
        Result.ok { res.data with clicks := 1 } ∧
      (getUrl (1000 + 1800001) 1801000 "ua" (zeroRand 0) s1 res.data.shortCode).1 =
        Result.error ServiceError.expired) ∧
    (isExpired (1000 + 1800000)
        (some (Mapping.mk "https://example.com/page" 1000 (some 30) 0)) = false ∧
      isExpired (1000 + 1800001)
        (some (Mapping.mk "https://example.com/page" 1000 (some 30) 0)) = true) :=
  have h0 := shortenUrl_custom_ok schemeParser 1000 zeroRand 0 UrlService.new
    "https://example.com/page" (some (JsNum.fin 30)) "abc123" (by decide) validity30_accepted
    (by decide) (by decide) (by decide)
  ⟨⟨_, _, h0, (expiry_boundary schemeParser).2.2.1 1000 zeroRand 0 UrlService.new
    "https://example.com/page" (some "abc123") _ _ 1801000 "ua" (zeroRand 0) h0
    (by decide) (by decide)⟩,
   (expiry_boundary schemeParser).2.2.2.2 1000 "https://example.com/page" 0 (by decide)
    (by decide)⟩

/-! ### Round trip -/

theorem le_truncQ (n : ℤ) (x : ℚ) (h : (n : ℚ) ≤ x) : n ≤ truncQ x := by
  unfold truncQ
  split_ifs with h0
  · exact Int.le_floor.2 h
  · have : (n : ℚ) ≤ ((⌈x⌉ : ℤ) : ℚ) := le_trans h (Int.le_ceil x)
    exact_mod_cast this

/-- A clock not past `t0 + q * 60000` is not past the stored expiry date. -/
theorem not_gt_expiresAt (now t0 : ℤ) (q : ℚ) (h : (now : ℚ) ≤ (t0 : ℚ) + q * 60000) :
    JsNum.gt (JsNum.fin now) (dateValue
      (newDate (JsNum.add (JsNum.fin t0) (JsNum.mul (JsNum.fin q) (JsNum.fin 60000))))) =
      false := by
  simp only [JsNum.add, JsNum.mul, newDate]
  split_ifs with hbig
  · rfl
  · simp only [dateValue, JsNum.gt, decide_eq_false_iff_not, not_lt]
    exact_mod_cast le_truncQ now _ h

/-- C4 (round trip).  For a URL the parser accepts, a positive validity `q`, and a custom code
`c` that is well formed and not yet a key, `shortenUrl` returns a record whose `shortCode` is
`c`; a `getUrl(c)` at a clock not past `t0 + q * 60000` then returns a record whose `longUrl`
is the URL given and whose `clicks` is 1. -/
theorem round_trip (parseUrl : String → Bool) (t0 : ℤ) (rnd : ℕ → Rand01) (fuel : ℕ)
    (s : UrlService) (u : String) (q : ℚ) (c : String) (now clickTime : ℤ)
    (userAgent : String) (r : Rand01)
    (hu : parseUrl u = true) (hq : 0 < q) (hc : c ≠ "") (hm : matchesAtLeast4 c = true)
    (hf : mapHas s.urlMappings c = false) (hnow : (now : ℚ) ≤ (t0 : ℚ) + q * 60000) :
    ∃ res s1,
      shortenUrl parseUrl t0 rnd fuel s u (some (JsNum.fin q)) (some c) =
        some (Result.ok res, s1) ∧
      res.data.shortCode = c ∧
      ∃ d s2, getUrl now clickTime userAgent r s1 c = (Result.ok d, s2) ∧
        d.longUrl = u ∧ d.clicks = 1 := by
  have hv : (((some (JsNum.fin q)).getD (JsNum.fin 30)).truthy &&
      (((some (JsNum.fin q)).getD (JsNum.fin 30)).isNaN ||
        ((some (JsNum.fin q)).getD (JsNum.fin 30)).le0)) = false := by
    simp [JsNum.truthy, JsNum.isNaN, JsNum.le0, hq]
  have h0 := shortenUrl_custom_ok parseUrl t0 rnd fuel s u (some (JsNum.fin q)) c hu hv hc hm hf
  refine ⟨_, _, h0, rfl, ?_⟩
  have hd : mapGet (insertRecord t0 s u (JsNum.fin q) c).2.urlMappings c = some
      { id := s.nextId, longUrl := u, shortCode := c, createdAt := t0,
        expiresAt := newDate (JsNum.add (JsNum.fin t0)
          (JsNum.mul (JsNum.fin q) (JsNum.fin 60000))), clicks := 0 } := by
    simp [insertRecord, mapGet_mapSet_same]
  have hl : mapGet (insertRecord t0 s u (JsNum.fin q) c).2.clickData c = some [] := by
    simp [insertRecord, mapGet_mapSet_same]
  have hg := getUrl_ok now clickTime userAgent r _ c _ _ hd (not_gt_expiresAt now t0 q hnow) hl
  exact ⟨_, _, hg, rfl, rfl⟩

/-- The instance of C4 named by the specification: `https://example.com/page`, 30 minutes,
code `abc123`, resolved at the clock of creation. -/
theorem round_trip_witness :
    ∃ res s1,
      shortenUrl schemeParser 1000 zeroRand 0 UrlService.new "https://example.com/page"
        (some (JsNum.fin 30)) (some "abc123") = some (Result.ok res, s1) ∧
      res.data.shortCode = "abc123" ∧
      ∃ d s2, getUrl 1000 1000 "ua" (zeroRand 0) s1 "abc123" = (Result.ok d, s2) ∧
        d.longUrl = "https://example.com/page" ∧ d.clicks = 1 :=
  round_trip schemeParser 1000 zeroRand 0 UrlService.new "https://example.com/page" 30
    "abc123" 1000 1000 "ua" (zeroRand 0) (by decide) (by norm_num) (by decide) (by decide)
    (by decide) (by norm_num)

/-! ### Click accounting -/

theorem clicksMatch_insertRecord (now : ℤ) (s : UrlService) (longUrl : String) (v : JsNum)
    (c : String) (hs : ClicksMatch s) : ClicksMatch (insertRecord now s longUrl v c).2 := by
  intro code d hd
  simp only [insertRecord] at hd ⊢
  by_cases hc : c = code
  · subst hc
    rw [mapGet_mapSet_same] at hd ⊢
    simp only [Option.some.injEq] at hd
    subst hd
    exact ⟨[], rfl, rfl⟩
  · rw [mapGet_mapSet_ne _ _ _ _ hc] at hd ⊢
    exact hs code d hd

theorem clicksOf_insertRecord (now : ℤ) (s : UrlService) (longUrl : String) (v : JsNum)
    (c : String) (hf : mapHas s.urlMappings c = false) (code : String) :
    clicksOf (insertRecord now s longUrl v c).2 code = clicksOf s code := by
  simp only [insertRecord, clicksOf]
  by_cases hc : c = code
  · subst hc
    have hn : mapGet s.urlMappings c = none := by
      cases h : mapGet s.urlMappings c with
      | none => rfl
      | some d => simp [mapHas, h] at hf
    rw [mapGet_mapSet_same, hn]
  · rw [mapGet_mapSet_ne _ _ _ _ hc]

/-- One `getUrl` in a state satisfying the invariant: the invariant is kept and the `clicks`
of each code grows by one exactly when the call returns and is on that code. -/
theorem getUrl_accounting (now clickTime : ℤ) (userAgent : String) (r : Rand01)
    (s : UrlService) (c : String) (hs : ClicksMatch s) :
    ClicksMatch (getUrl now clickTime userAgent r s c).2 ∧
    ∀ code, clicksOf (getUrl now clickTime userAgent r s c).2 code =
      clicksOf s code + (if isHit s code (Call.resolve now clickTime userAgent r c) then 1 else 0) := by
  cases hd : mapGet s.urlMappings c with
  | none =>
    have hg : getUrl now clickTime userAgent r s c = (Result.error ServiceError.notFound, s) := by
      simp [getUrl, hd]
    simp [isHit, hg, Result.isOk, hs]
  | some d =>
    by_cases he : JsNum.gt (JsNum.fin now) (dateValue d.expiresAt) = true
    · have hg : getUrl now clickTime userAgent r s c =
          (Result.error ServiceError.expired, s) := by
        simp [getUrl, hd, he]
      simp [isHit, hg, Result.isOk, hs]
    · obtain ⟨l, hl, hlen⟩ := hs c d hd
      have hg := getUrl_ok now clickTime userAgent r s c d l hd (by simpa using he) hl
      rw [hg]
      constructor
      · intro code d1 hd1
        simp only at hd1 ⊢
        by_cases hc : c = code
        · subst hc
          rw [mapGet_mapSet_same] at hd1 ⊢
          simp only [Option.some.injEq] at hd1
          subst hd1
          exact ⟨_, rfl, by simp [hlen]⟩
        · rw [mapGet_mapSet_ne _ _ _ _ hc] at hd1 ⊢
          exact hs code d1 hd1
      · intro code
        simp only [clicksOf, isHit, hg, Result.isOk, Bool.and_true, decide_eq_true_eq]
        by_cases hc : c = code
        · subst hc
          simp [mapGet_mapSet_same, hd]
        · simp [mapGet_mapSet_ne _ _ _ _ hc, hc]

theorem step_accounting (parseUrl : String → Bool) (s s1 : UrlService) (call : Call)
    (h : step parseUrl s call = some s1) (hs : ClicksMatch s) :
    ClicksMatch s1 ∧
    ∀ code, clicksOf s1 code = clicksOf s code + (if isHit s code call then 1 else 0) := by
  cases call with
  | shorten now rnd fuel longUrl v custom =>
    simp only [step, Option.map_eq_some'] at h
    obtain ⟨⟨res, s2⟩, h1, h2⟩ := h
    simp only at h2
    subst h2
    cases res with
    | error e =>
      rw [shortenUrl_error_state _ _ _ _ _ _ _ _ _ _ h1]
      exact ⟨hs, fun code => by simp [isHit]⟩
    | ok r =>
      obtain ⟨c, hf, _, hi⟩ := shortenUrl_ok_inv _ _ _ _ _ _ _ _ _ _ h1
      have hs2 : s2 = (insertRecord now s longUrl (v.getD (JsNum.fin 30)) c).2 := by rw [hi]
      rw [hs2]
      exact ⟨clicksMatch_insertRecord _ _ _ _ _ hs,
        fun code => by simp [isHit, clicksOf_insertRecord _ _ _ _ _ hf]⟩
  | resolve now clickTime userAgent r c =>
    simp only [step, Option.some.injEq] at h
    rw [← h]
    exact getUrl_accounting now clickTime userAgent r s c hs

theorem run_accounting (parseUrl : String → Bool) (calls : List Call) (s s1 : UrlService)
    (h : run parseUrl s calls = some s1) (hs : ClicksMatch s) :
    ClicksMatch s1 ∧ ∀ code, clicksOf s1 code = clicksOf s code + hits parseUrl code s calls := by
  induction calls generalizing s with
  | nil =>
    simp only [run, Option.some.injEq] at h
    subst h
    exact ⟨hs, fun code => by simp [hits]⟩
  | cons call rest ih =>
    simp only [run] at h
    cases hstep : step parseUrl s call with
    | none => simp [hstep] at h
    | some s2 =>
      rw [hstep] at h
      obtain ⟨hs2, hc2⟩ := step_accounting _ _ _ _ hstep hs
      obtain ⟨hs1, hc1⟩ := ih s2 h hs2
      refine ⟨hs1, fun code => ?_⟩
      rw [hc1 code, hc2 code]
      simp only [hits, hstep]
      omega

theorem clicksMatch_new : ClicksMatch UrlService.new := by
  intro code d hd
  simp [UrlService.new, mapGet] at hd

theorem shortenUrl_ok_keys (parseUrl : String → Bool) (now : ℤ) (rnd : ℕ → Rand01)
    (fuel : ℕ) (s : UrlService) (longUrl : String) (v : Option JsNum) (custom : Option String)
    (r : ShortenResult) (s1 : UrlService)
    (h : shortenUrl parseUrl now rnd fuel s longUrl v custom = some (Result.ok r, s1)) :
    mapKeys s1.urlMappings = mapKeys s.urlMappings ++ [r.data.shortCode] := by
  obtain ⟨code, hf, _, hi⟩ := shortenUrl_ok_inv _ _ _ _ _ _ _ _ _ _ h
  simp only [insertRecord, Prod.mk.injEq, Result.ok.injEq] at hi
  obtain ⟨hr, hs⟩ := hi
  subst hr
  subst hs
  simp only
  rw [mapSet_of_not_has _ _ _ hf, mapKeys_append_single]

theorem step_has (parseUrl : String → Bool) (s s1 : UrlService) (call : Call)
    (h : step parseUrl s call = some s1) (code : String)
    (hc : mapHas s.urlMappings code = true) : mapHas s1.urlMappings code = true := by
  rw [mapHas_eq_true_iff] at hc ⊢
  cases call with
  | shorten now rnd fuel longUrl v custom =>
    simp only [step, Option.map_eq_some'] at h
    obtain ⟨⟨res, s2⟩, h1, h2⟩ := h
    simp only at h2
    subst h2
    cases res with
    | error e => rw [shortenUrl_error_state _ _ _ _ _ _ _ _ _ _ h1]; exact hc
    | ok r =>
      rw [shortenUrl_ok_keys _ _ _ _ _ _ _ _ _ _ h1]
      exact List.mem_append_left _ hc
  | resolve now clickTime userAgent r c =>
    simp only [step, Option.some.injEq] at h
    rw [← h, getUrl_keys]
    exact hc

theorem run_has (parseUrl : String → Bool) (calls : List Call) (s s1 : UrlService)
    (h : run parseUrl s calls = some s1) (code : String)
    (hc : mapHas s.urlMappings code = true) : mapHas s1.urlMappings code = true := by
  induction calls generalizing s with
  | nil =>
    simp only [run, Option.some.injEq] at h
    subst h
    exact hc
  | cons call rest ih =>
    simp only [run] at h
    cases hstep : step parseUrl s call with
    | none => simp [hstep] at h
    | some s2 =>
      rw [hstep] at h
      exact ih s2 h (step_has _ _ _ _ hstep code hc)

/-- C5 (click accounting).  In every state reached from the empty service by a sequence of
`shortenUrl` and `getUrl` calls, returning or throwing, each stored record has a click list,
its `clicks` equals the length of that list, and both equal the number of `getUrl` calls on
that code that returned so far; a stored record stays stored under later calls and its `clicks`
never decreases. -/
theorem click_accounting (parseUrl : String → Bool) (calls : List Call) (s : UrlService)
    (h : run parseUrl UrlService.new calls = some s) :
    (∀ code d, mapGet s.urlMappings code = some d →
      ∃ l, mapGet s.clickData code = some l ∧ d.clicks = l.length ∧
        l.length = hits parseUrl code UrlService.new calls) ∧
    (∀ (more : List Call) (s2 : UrlService), run parseUrl s more = some s2 →
      ∀ code d, mapGet s.urlMappings code = some d →
        ∃ d2, mapGet s2.urlMappings code = some d2 ∧ d.clicks ≤ d2.clicks) := by
  obtain ⟨hinv, hcount⟩ := run_accounting parseUrl calls _ _ h clicksMatch_new
  constructor
  · intro code d hd
    obtain ⟨l, hl, hlen⟩ := hinv code d hd
    refine ⟨l, hl, hlen, ?_⟩
    have h0 : clicksOf UrlService.new code = 0 := rfl
    have := hcount code
    rw [h0] at this
    simp only [clicksOf, hd] at this
    omega
  · intro more s2 h2 code d hd
    obtain ⟨_, hcount2⟩ := run_accounting parseUrl more _ _ h2 hinv
    have hh : mapHas s2.urlMappings code = true :=
      run_has parseUrl more _ _ h2 code (by simp [mapHas, hd])
    cases hd2 : mapGet s2.urlMappings code with
    | none => simp [mapHas, hd2] at hh
    | some d2 =>
      refine ⟨d2, rfl, ?_⟩
      have := hcount2 code
      simp only [clicksOf, hd, hd2] at this
      omega

/-- An instance of C5: after the sample session the record of `abc123` has one click, one
click event, and one returning `getUrl` was made on it. -/
theorem click_accounting_witness :
    ∃ s d l, run schemeParser UrlService.new sampleCalls = some s ∧
      mapGet s.urlMappings "abc123" = some d ∧ mapGet s.clickData "abc123" = some l ∧
      d.clicks = 1 ∧ l.length = 1 ∧
      hits schemeParser "abc123" UrlService.new sampleCalls = 1 := by
  have h0 := shortenUrl_custom_ok schemeParser 1000 zeroRand 0 UrlService.new
    "https://example.com/page" (some (JsNum.fin 30)) "abc123" (by decide) validity30_accepted
    (by decide) (by decide) (by decide)
  have hg := getUrl_ok 2000 2001 "ua" (zeroRand 0)
    (insertRecord 1000 UrlService.new "https://example.com/page" (JsNum.fin 30) "abc123").2
    "abc123"
    { id := 1, longUrl := "https://example.com/page", shortCode := "abc123", createdAt := 1000,
      expiresAt := newDate (JsNum.add (JsNum.fin ((1000 : ℤ) : ℚ))
        (JsNum.mul (JsNum.fin 30) (JsNum.fin 60000))), clicks := 0 }
    [] (mapGet_mapSet_same _ _ _) (not_gt_expiresAt 2000 1000 30 (by norm_num))
    (mapGet_mapSet_same _ _ _)
  have hrun : run schemeParser UrlService.new sampleCalls = some
      (getUrl 3000 3001 "ua" (zeroRand 0)
        (getUrl 2000 2001 "ua" (zeroRand 0)
          (insertRecord 1000 UrlService.new "https://example.com/page" (JsNum.fin 30)
            "abc123").2 "abc123").2 "zzzz").2 := by
    simp only [sampleCalls, run, step, h0, Option.map_some', Option.getD_some]
  rw [hg] at hrun
  have hnf : ∀ s0 : UrlService, mapGet s0.urlMappings "zzzz" = none →
      getUrl 3000 3001 "ua" (zeroRand 0) s0 "zzzz" = (Result.error ServiceError.notFound, s0) := by
    intro s0 h; simp [getUrl, h]
  rw [hnf _ (by simp [insertRecord, UrlService.new, mapSet, mapGet])] at hrun
  have hd := mapGet_mapSet_same
    (insertRecord 1000 UrlService.new "https://example.com/page" (JsNum.fin 30)
      "abc123").2.urlMappings "abc123"
    { id := 1, longUrl := "https://example.com/page", shortCode := "abc123", createdAt := 1000,
      expiresAt := newDate (JsNum.add (JsNum.fin ((1000 : ℤ) : ℚ))
        (JsNum.mul (JsNum.fin 30) (JsNum.fin 60000))), clicks := 0 + 1 }
  obtain ⟨l, hl, hlen, hhits⟩ :=
    (click_accounting schemeParser sampleCalls _ hrun).1 "abc123" _ hd
  exact ⟨_, _, l, hrun, hd, hl, rfl, hlen ▸ rfl, by rw [← hhits, ← hlen]⟩

/-! ### Failed resolutions -/

theorem gt_dateValue_iff (now : ℤ) (e : Option ℤ) :
    JsNum.gt (JsNum.fin now) (dateValue e) = true ↔ ∃ t, e = some t ∧ now > t := by
  cases e with
  | none => simp [dateValue, JsNum.gt]
  | some t => simp [dateValue, JsNum.gt]

/-- C6 (typed, atomic resolution failure).  `getUrl` throws the not-found error exactly when no
record is stored under the code; it throws the expired error, a different one, exactly when a
record is stored whose expiry date is valid and earlier than the clock; in both cases the state
returned is the state given, so every `clicks` field and every click list is as before. -/
theorem resolution_failure (now clickTime : ℤ) (userAgent : String) (r : Rand01)
    (s : UrlService) (code : String) :
    ((getUrl now clickTime userAgent r s code).1 = Result.error ServiceError.notFound ↔
      mapGet s.urlMappings code = none) ∧
    ((getUrl now clickTime userAgent r s code).1 = Result.error ServiceError.expired ↔
      ∃ d t, mapGet s.urlMappings code = some d ∧ d.expiresAt = some t ∧ now > t) ∧
    ServiceError.notFound ≠ ServiceError.expired ∧
    ServiceError.notFound.message ≠ ServiceError.expired.message ∧
    ((getUrl now clickTime userAgent r s code).1 = Result.error ServiceError.notFound ∨
      (getUrl now clickTime userAgent r s code).1 = Result.error ServiceError.expired →
      (getUrl now clickTime userAgent r s code).2 = s) := by
  refine ⟨getUrl_notFound_iff _ _ _ _ _ _, ?_, by decide, by decide, ?_⟩
  · rw [getUrl_expired_iff]
    constructor
    · rintro ⟨d, hd, hg⟩
      obtain ⟨t, ht, hlt⟩ := (gt_dateValue_iff now d.expiresAt).1 hg
      exact ⟨d, t, hd, ht, hlt⟩
    · rintro ⟨d, t, hd, ht, hlt⟩
      exact ⟨d, hd, (gt_dateValue_iff now d.expiresAt).2 ⟨t, ht, hlt⟩⟩
  · unfold getUrl
    cases hg : mapGet s.urlMappings code with
    | none => simp
    | some d =>
      simp only
      split_ifs with h1
      · simp
      · cases hc : mapGet s.clickData code with
        | none => simp [hc]
        | some l => simp [hc]

/-- An instance of C6 on the store holding `dup1` (expiry 1800000, two clicks): an unknown code
and a late clock both fail and return the store as it was. -/
theorem resolution_failure_witness :
    getUrl 5 5 "ua" (zeroRand 0) dupStore "nope" =
      (Result.error ServiceError.notFound, dupStore) ∧
    getUrl 1800001 1800001 "ua" (zeroRand 0) dupStore "dup1" =
      (Result.error ServiceError.expired, dupStore) :=
  have h1 := resolution_failure 5 5 "ua" (zeroRand 0) dupStore "nope"
  have h2 := resolution_failure 1800001 1800001 "ua" (zeroRand 0) dupStore "dup1"
  have e1 := h1.1.2 (by decide)
  have e2 := h2.2.1.2 ⟨_, 1800000, rfl, rfl, by decide⟩
  ⟨Prod.ext e1 (h1.2.2.2.2 (Or.inl e1)), Prod.ext e2 (h2.2.2.2.2 (Or.inr e2))⟩

/-! ### Validation failures -/

/-- C7 (invalid URL).  When the URL parser rejects the destination, `shortenUrl` throws the
invalid-URL error for every validity and requested code and returns the state it was given
(`urlMappings`, `clickData` and `nextId` as before); any number of such calls in a row, with
whatever clocks, validities and codes, ends in the same state.  `ShortenForm.submit` likewise
reports `Invalid URL` and leaves the table as it was. -/
theorem invalid_url_rejected (parseUrl : String → Bool) (longUrl : String)
    (h : parseUrl longUrl = false) :
    (∀ (now : ℤ) (rnd : ℕ → Rand01) (fuel : ℕ) (s : UrlService) (v : Option JsNum)
        (custom : Option String),
        shortenUrl parseUrl now rnd fuel s longUrl v custom =
          some (Result.error ServiceError.invalidUrl, s)) ∧
    (∀ (s : UrlService) (calls : List Call),
        (∀ call ∈ calls, ∃ now rnd fuel v custom,
          call = Call.shorten now rnd fuel longUrl v custom) →
        run parseUrl s calls = some s) ∧
    (∀ (now : ℤ) (bytes : ℕ → ℕ) (origin : String) (m : List (String × Mapping))
        (custom : String) (validNumber : JsNum),
        submit parseUrl now bytes origin m longUrl custom validNumber =
          (SubmitOutcome.formError "Invalid URL", m)) := by
  have h1 : ∀ (now : ℤ) (rnd : ℕ → Rand01) (fuel : ℕ) (s : UrlService) (v : Option JsNum)
      (custom : Option String),
      shortenUrl parseUrl now rnd fuel s longUrl v custom =
        some (Result.error ServiceError.invalidUrl, s) := by
    intro now rnd fuel s v custom
    simp [shortenUrl, h]
  refine ⟨h1, ?_, ?_⟩
  · intro s calls hcalls
    induction calls with
    | nil => rfl
    | cons call rest ih =>
      obtain ⟨now, rnd, fuel, v, custom, hc⟩ := hcalls call (List.mem_cons_self _ _)
      subst hc
      simp only [run, step, h1, Option.map_some']
      exact ih (fun c hc => hcalls c (List.mem_cons_of_mem _ hc))
  · intro now bytes origin m custom validNumber
    simp [submit, h]

/-- The instance of C7 named by the specification: `not a url`, 30 minutes. -/
theorem invalid_url_rejected_witness :
    shortenUrl schemeParser 1000 zeroRand 0 dupStore "not a url" (some (JsNum.fin 30)) none =
      some (Result.error ServiceError.invalidUrl, dupStore) ∧
    run schemeParser dupStore
      (List.replicate 3 (Call.shorten 1000 zeroRand 0 "not a url" (some (JsNum.fin 30)) none)) =
      some dupStore ∧
    submit schemeParser 1000 zeroBytes "http://localhost:3000" dupTable "not a url" ""
      (JsNum.fin 30) = (SubmitOutcome.formError "Invalid URL", dupTable) :=
  have h := invalid_url_rejected schemeParser "not a url" (by decide)
  ⟨h.1 1000 zeroRand 0 dupStore (some (JsNum.fin 30)) none,
   h.2.1 dupStore _ (fun call hc => ⟨1000, zeroRand, 0, some (JsNum.fin 30), none,
     List.eq_of_mem_replicate hc⟩),
   h.2.2 1000 zeroBytes "http://localhost:3000" dupTable "" (JsNum.fin 30)⟩

/-! ### Validity -/

/-- The outcome of `submitCreate` does not depend on the validity. -/
theorem submitCreate_outcome (now : ℤ) (origin : String) (m : List (String × Mapping))
    (sc url : String) (v1 v2 : JsNum) :
    (submitCreate now origin m sc url v1).1 = (submitCreate now origin m sc url v2).1 := by
  unfold submitCreate createMapping
  by_cases h : objTruthy m sc = true
  · simp [h]
  · simp [h]

/-- C8, as amended.  For a URL the parser accepts: `shortenUrl` throws the invalid-validity
error and returns the state unchanged when the validity is a negative number; it never throws
that error when the validity is a positive number, whole or fractional; an omitted validity is
30.  `ShortenForm.submit` has no validity check: its outcome is the same for every validity,
and the record it creates carries `Number(valid) || 30`. -/
theorem validity_validation (parseUrl : String → Bool) :
    (∀ (now : ℤ) (rnd : ℕ → Rand01) (fuel : ℕ) (s : UrlService) (longUrl : String) (q : ℚ)
        (custom : Option String), parseUrl longUrl = true → q < 0 →
        shortenUrl parseUrl now rnd fuel s longUrl (some (JsNum.fin q)) custom =
          some (Result.error ServiceError.invalidValidity, s)) ∧
    (∀ (now : ℤ) (rnd : ℕ → Rand01) (fuel : ℕ) (s : UrlService) (longUrl : String) (q : ℚ)
        (custom : Option String) (out : Result ServiceError ShortenResult × UrlService),
        0 < q →
        shortenUrl parseUrl now rnd fuel s longUrl (some (JsNum.fin q)) custom = some out →
        out.1 ≠ Result.error ServiceError.invalidValidity) ∧
    (∀ (now : ℤ) (rnd : ℕ → Rand01) (fuel : ℕ) (s : UrlService) (longUrl : String)
        (custom : Option String),
        shortenUrl parseUrl now rnd fuel s longUrl none custom =
          shortenUrl parseUrl now rnd fuel s longUrl (some (JsNum.fin 30)) custom) ∧
    (∀ (now : ℤ) (bytes : ℕ → ℕ) (origin : String) (m : List (String × Mapping))
        (url custom : String) (v1 v2 : JsNum),
        (submit parseUrl now bytes origin m url custom v1).1 =
          (submit parseUrl now bytes origin m url custom v2).1) ∧
    (∀ (now : ℤ) (origin : String) (m m1 : List (String × Mapping)) (sc url shortUrl : String)
        (v : JsNum),
        submitCreate now origin m sc url v = (SubmitOutcome.created sc shortUrl, m1) →
        mapGet m1 sc =
          some (Mapping.mk url now (jsonNum (JsNum.orElse v (JsNum.fin 30))) 0)) := by
  refine ⟨?_, ?_, ?_, ?_, ?_⟩
  · intro now rnd fuel s longUrl q custom hp hq
    have h1 : q ≠ 0 := ne_of_lt hq
    have h2 : q ≤ 0 := le_of_lt hq
    simp [shortenUrl, hp, JsNum.truthy, JsNum.isNaN, JsNum.le0, h1, h2]
  · intro now rnd fuel s longUrl q custom out hq h
    have hv : ((JsNum.fin q).truthy && ((JsNum.fin q).isNaN || (JsNum.fin q).le0)) = false := by
      simp [JsNum.truthy, JsNum.isNaN, JsNum.le0, hq]
    unfold shortenUrl at h
    simp only [Option.getD_some, hv] at h
    split_ifs at h with h1 h2
    · simp only [Option.some.injEq] at h
      rw [← h]
      simp
    · exact h2.elim
    · cases custom with
      | none =>
        simp only [Option.map_eq_some'] at h
        obtain ⟨code, _, hi⟩ := h
        rw [← hi]
        simp [insertRecord]
      | some c =>
        simp only at h
        split_ifs at h with h3 h4 h5
        · simp only [Option.some.injEq] at h; rw [← h]; simp
        · simp only [Option.some.injEq] at h; rw [← h]; simp
        · simp only [Option.some.injEq] at h; rw [← h]; simp [insertRecord]
        · simp only [Option.map_eq_some'] at h
          obtain ⟨code, _, hi⟩ := h
          rw [← hi]
          simp [insertRecord]
  · intro now rnd fuel s longUrl custom
    rfl
  · intro now bytes origin m url custom v1 v2
    unfold submit
    simp only
    split_ifs with h1 h2 h3 h4
    · rfl
    · rfl
    · rfl
    · exact submitCreate_outcome _ _ _ _ _ _ _
    · exact submitCreate_outcome _ _ _ _ _ _ _
  · intro now origin m m1 sc url shortUrl v h
    unfold submitCreate createMapping at h
    by_cases ht : objTruthy m sc = true
    · simp [ht] at h
    · simp only [ht, Bool.false_eq_true, ↓reduceIte, Option.getD_some, Prod.mk.injEq,
        SubmitOutcome.created.injEq, true_and] at h
      rw [← h.2, mapGet_mapSet_same]

/-- An instance of the amended C8: `-5` minutes is rejected by `shortenUrl` with the store
untouched, `3/2` minutes is not rejected on the validity, and `submit` treats `-5` as `30`. -/
theorem validity_validation_witness :
    shortenUrl schemeParser 1000 zeroRand 0 dupStore "https://example.com/page"
        (some (JsNum.fin (-5))) none =
      some (Result.error ServiceError.invalidValidity, dupStore) ∧
    (∀ out, shortenUrl schemeParser 1000 zeroRand 0 dupStore "https://example.com/page"
        (some (JsNum.fin (3 / 2))) (some "abc123") = some out →
      out.1 ≠ Result.error ServiceError.invalidValidity) ∧
    (submit schemeParser 1000 zeroBytes "http://localhost:3000" dupTable
        "https://example.com/page" "neg1" (JsNum.fin (-5))).1 =
      (submit schemeParser 1000 zeroBytes "http://localhost:3000" dupTable
        "https://example.com/page" "neg1" (JsNum.fin 30)).1 :=
  have h := validity_validation schemeParser
  ⟨h.1 1000 zeroRand 0 dupStore "https://example.com/page" (-5) none (by decide) (by norm_num),
   fun out => h.2.1 1000 zeroRand 0 dupStore "https://example.com/page" (3 / 2) (some "abc123")
     out (by norm_num),
   h.2.2.2.1 1000 zeroBytes "http://localhost:3000" dupTable "https://example.com/page" "neg1"
     (JsNum.fin (-5)) (JsNum.fin 30)⟩

/-- The counterexample to C8 as stated: a validity of `3/2` minutes, which is not a positive
integer, is accepted by `shortenUrl` and a record is stored; and `submit` given `-5` minutes
creates a record carrying `-5`. -/
theorem validity_not_integer_accepted :
    (∃ res s1,
      shortenUrl schemeParser 1000 zeroRand 0 UrlService.new "https://example.com/page"
        (some (JsNum.fin (3 / 2))) (some "abc123") = some (Result.ok res, s1) ∧
      mapGet s1.urlMappings "abc123" = some res.data) ∧
    submit schemeParser 1000 zeroBytes "http://localhost:3000" [] "https://example.com/page"
        "neg1" (JsNum.fin (-5)) =
      (SubmitOutcome.created "neg1" "http://localhost:3000/neg1",
        [("neg1", Mapping.mk "https://example.com/page" 1000 (some (-5)) 0)]) := by
  constructor
  · have hv : (((some (JsNum.fin (3 / 2))).getD (JsNum.fin 30)).truthy &&
        (((some (JsNum.fin (3 / 2))).getD (JsNum.fin 30)).isNaN ||
          ((some (JsNum.fin (3 / 2))).getD (JsNum.fin 30)).le0)) = false := by
      simp [JsNum.truthy, JsNum.isNaN, JsNum.le0]
    have h0 := shortenUrl_custom_ok schemeParser 1000 zeroRand 0 UrlService.new
      "https://example.com/page" (some (JsNum.fin (3 / 2))) "abc123" (by decide) hv
      (by decide) (by decide) (by decide)
    exact ⟨_, _, h0, mapGet_mapSet_same _ _ _⟩
  · have hp : schemeParser "https://example.com/page" = true := by decide
    have ht : jsTrim "neg1" = "neg1" := by decide
    have hm : matches4to12 "neg1" = true := by decide
    have ho : objTruthy [] "neg1" = false := by decide
    have hs : ("http://localhost:3000" ++ "/" ++ "neg1" : String) =
        "http://localhost:3000/neg1" := by decide
    simp [submit, submitCreate, createMapping, hp, ht, hm, ho, hs, mapKeys, mapSet,
      JsNum.orElse, JsNum.truthy, jsonNum]

/-- What the short-circuit `validityMinutes && ..` leaves through: a validity of `0` and a
validity of `NaN` are both accepted by `shortenUrl`. -/
theorem zero_and_nan_validity_pass :
    (∃ res s1,
      shortenUrl schemeParser 1000 zeroRand 0 UrlService.new "https://example.com/page"
        (some (JsNum.fin 0)) (some "abc123") = some (Result.ok res, s1)) ∧
    (∃ res s1,
      shortenUrl schemeParser 1000 zeroRand 0 UrlService.new "https://example.com/page"
        (some JsNum.nan) (some "abc123") = some (Result.ok res, s1)) :=
  ⟨⟨_, _, shortenUrl_custom_ok schemeParser 1000 zeroRand 0 UrlService.new
      "https://example.com/page" (some (JsNum.fin 0)) "abc123" (by decide)
      (by simp [JsNum.truthy]) (by decide) (by decide) (by decide)⟩,
   ⟨_, _, shortenUrl_custom_ok schemeParser 1000 zeroRand 0 UrlService.new
      "https://example.com/page" (some JsNum.nan) "abc123" (by decide)
      (by simp [JsNum.truthy]) (by decide) (by decide) (by decide)⟩⟩

/-! ### Requested-code format -/

theorem matches4to12_imp (c : String) (h : matches4to12 c = true) :
    matchesAtLeast4 c = true := by
  simp only [matches4to12, matchesAtLeast4, Bool.and_eq_true] at h ⊢
  exact h.1

theorem matchesAtLeast4_eq_false_iff (c : String) :
    matchesAtLeast4 c = false ↔ c.length < 4 ∨ ∃ ch ∈ c.data, isCodeChar ch = false := by
  simp only [matchesAtLeast4, Bool.and_eq_false_iff, List.all_eq_false, decide_eq_false_iff_not,
    not_le]
  constructor
  · rintro (⟨ch, h1, h2⟩ | h)
    · exact Or.inr ⟨ch, h1, by simpa using h2⟩
    · exact Or.inl h
  · rintro (h | ⟨ch, h1, h2⟩)
    · exact Or.inr h
    · exact Or.inl ⟨ch, h1, by simpa using h2⟩

theorem matches4to12_eq_false_iff (c : String) :
    matches4to12 c = false ↔
      c.length < 4 ∨ 12 < c.length ∨ ∃ ch ∈ c.data, isCodeChar ch = false := by
  simp only [matches4to12, Bool.and_eq_false_iff, List.all_eq_false, decide_eq_false_iff_not,
    not_le]
  constructor
  · rintro ((⟨ch, h1, h2⟩ | h) | h)
    · exact Or.inr (Or.inr ⟨ch, h1, by simpa using h2⟩)
    · exact Or.inl h
    · exact Or.inr (Or.inl h)
  · rintro (h | h | ⟨ch, h1, h2⟩)
    · exact Or.inl (Or.inr h)
    · exact Or.inr h
    · exact Or.inl (Or.inl ⟨ch, h1, by simpa using h2⟩)

theorem map_insertRecord_ne_error (now : ℤ) (s : UrlService) (longUrl : String) (v : JsNum)
    (g : Option String) (e : ServiceError) (s1 : UrlService) :
    g.map (insertRecord now s longUrl v) ≠ some (Result.error e, s1) := by
  cases g with
  | none => simp
  | some c => simp [insertRecord]

theorem submitCreate_ne_formError (now : ℤ) (origin : String) (m : List (String × Mapping))
    (sc url : String) (v : JsNum) (msg : String) :
    (submitCreate now origin m sc url v).1 ≠ SubmitOutcome.formError msg := by
  unfold submitCreate createMapping
  by_cases ht : objTruthy m sc = true
  · simp [ht]
  · simp [ht]

/-- C9, as amended.  For a URL the parser accepts and a validity that passes, `shortenUrl`
throws the invalid-format error exactly when a non-empty requested code is given that fails
`[a-zA-Z0-9_-]{4,}` (fewer than 4 characters, or a character outside letters, digits, hyphen,
underscore; there is no upper bound on the length), and it then returns the state unchanged; an
empty requested code counts as none.  For a URL the parser accepts, `ShortenForm.submit`
reports the format error exactly when the requested code, once trimmed, is non-empty and fails
`[A-Za-z0-9_-]{4,12}`, and it then leaves the table unchanged; a code that is empty once
trimmed counts as none and a code is generated. -/
theorem requested_code_format (parseUrl : String → Bool) :
    (∀ (now : ℤ) (rnd : ℕ → Rand01) (fuel : ℕ) (s : UrlService) (longUrl : String)
        (v : Option JsNum) (custom : Option String), parseUrl longUrl = true →
        ((v.getD (JsNum.fin 30)).truthy &&
          ((v.getD (JsNum.fin 30)).isNaN || (v.getD (JsNum.fin 30)).le0)) = false →
        ((∃ s1, shortenUrl parseUrl now rnd fuel s longUrl v custom =
            some (Result.error ServiceError.invalidCodeFormat, s1)) ↔
          ∃ c, custom = some c ∧ c ≠ "" ∧ matchesAtLeast4 c = false) ∧
        (∀ s1, shortenUrl parseUrl now rnd fuel s longUrl v custom =
            some (Result.error ServiceError.invalidCodeFormat, s1) → s1 = s)) ∧
    (∀ (now : ℤ) (rnd : ℕ → Rand01) (fuel : ℕ) (s : UrlService) (longUrl : String)
        (v : Option JsNum),
        shortenUrl parseUrl now rnd fuel s longUrl v (some "") =
          shortenUrl parseUrl now rnd fuel s longUrl v none) ∧
    (∀ c : String, matchesAtLeast4 c = false ↔
        c.length < 4 ∨ ∃ ch ∈ c.data, isCodeChar ch = false) ∧
    (∀ (now : ℤ) (bytes : ℕ → ℕ) (origin : String) (m : List (String × Mapping))
        (url custom : String) (validNumber : JsNum), parseUrl url = true →
        ((submit parseUrl now bytes origin m url custom validNumber).1 =
            SubmitOutcome.formError "Custom shortcode must be 4–12 chars [A-Za-z0-9_-]" ↔
          jsTrim custom ≠ "" ∧ matches4to12 (jsTrim custom) = false) ∧
        ((submit parseUrl now bytes origin m url custom validNumber).1 =
            SubmitOutcome.formError "Custom shortcode must be 4–12 chars [A-Za-z0-9_-]" →
          (submit parseUrl now bytes origin m url custom validNumber).2 = m) ∧
        (jsTrim custom = "" →
          submit parseUrl now bytes origin m url custom validNumber =
            submitCreate now origin m (generateUnique bytes (fun _ => mapKeys m) 6 50) url
              validNumber)) ∧
    (∀ c : String, matches4to12 c = false ↔
        c.length < 4 ∨ 12 < c.length ∨ ∃ ch ∈ c.data, isCodeChar ch = false) := by
  refine ⟨?_, ?_, matchesAtLeast4_eq_false_iff, ?_, matches4to12_eq_false_iff⟩
  · intro now rnd fuel s longUrl v custom hp hv
    have hgen : ∀ s1, (generateLoop s.urlMappings rnd fuel 0).map
        (insertRecord now s longUrl (v.getD (JsNum.fin 30))) ≠
        some (Result.error ServiceError.invalidCodeFormat, s1) :=
      fun s1 => map_insertRecord_ne_error _ _ _ _ _ _ _
    have hiff : (∃ s1, shortenUrl parseUrl now rnd fuel s longUrl v custom =
          some (Result.error ServiceError.invalidCodeFormat, s1)) ↔
        ∃ c, custom = some c ∧ c ≠ "" ∧ matchesAtLeast4 c = false := by
      constructor
      · rintro ⟨s1, h⟩
        cases custom with
        | none =>
          simp only [shortenUrl, hp, hv, Bool.not_true, Bool.false_eq_true, ↓reduceIte] at h
          exact absurd h (hgen s1)
        | some c =>
          by_cases hc : c = ""
          · subst hc
            simp only [shortenUrl, hp, hv, Bool.not_true, Bool.false_eq_true, ↓reduceIte,
              ne_eq, not_true_eq_false] at h
            exact absurd h (hgen s1)
          · refine ⟨c, rfl, hc, ?_⟩
            by_contra hm
            have hm1 : matchesAtLeast4 c = true := by simpa using hm
            by_cases hh : mapHas s.urlMappings c = true
            · simp [shortenUrl, hp, hv, hc, hm1, hh] at h
            · simp [shortenUrl, hp, hv, hc, hm1, hh, insertRecord] at h
      · rintro ⟨c, rfl, hc, hm⟩
        exact ⟨s, by simp [shortenUrl, hp, hv, hc, hm]⟩
    exact ⟨hiff, fun s1 h => shortenUrl_error_state _ _ _ _ _ _ _ _ _ _ h⟩
  · intro now rnd fuel s longUrl v
    simp [shortenUrl]
  · intro now bytes origin m url custom validNumber hp
    have hne : "Shortcode already exists" ≠
        "Custom shortcode must be 4–12 chars [A-Za-z0-9_-]" := by decide
    by_cases hc : jsTrim custom = ""
    · have hsub : submit parseUrl now bytes origin m url custom validNumber =
          submitCreate now origin m (generateUnique bytes (fun _ => mapKeys m) 6 50) url
            validNumber := by
        simp [submit, hp, hc]
      refine ⟨?_, ?_, fun _ => hsub⟩
      · rw [hsub]
        constructor
        · intro h
          exact absurd h (submitCreate_ne_formError _ _ _ _ _ _ _)
        · rintro ⟨h, _⟩
          exact absurd hc h
      · rw [hsub]
        intro h
        exact absurd h (submitCreate_ne_formError _ _ _ _ _ _ _)
    · by_cases hm : matches4to12 (jsTrim custom) = true
      · have hnot : (submit parseUrl now bytes origin m url custom validNumber).1 ≠
            SubmitOutcome.formError "Custom shortcode must be 4–12 chars [A-Za-z0-9_-]" := by
          by_cases hk : jsTrim custom ∈ mapKeys m
          · have hsub : submit parseUrl now bytes origin m url custom validNumber =
                (SubmitOutcome.formError "Shortcode already exists", m) := by
              simp [submit, hp, hc, hm, hk]
            rw [hsub]
            simp [hne]
          · have hsub : submit parseUrl now bytes origin m url custom validNumber =
                submitCreate now origin m (jsTrim custom) url validNumber := by
              simp [submit, hp, hc, hm, hk]
            rw [hsub]
            exact submitCreate_ne_formError _ _ _ _ _ _ _
        refine ⟨?_, fun h => absurd h hnot, fun h => absurd h hc⟩
        constructor
        · intro h
          exact absurd h hnot
        · rintro ⟨_, hm0⟩
          rw [hm] at hm0
          exact absurd hm0 (by simp)
      · have hm0 : matches4to12 (jsTrim custom) = false := by simpa using hm
        have hsub : submit parseUrl now bytes origin m url custom validNumber =
            (SubmitOutcome.formError "Custom shortcode must be 4–12 chars [A-Za-z0-9_-]",
              m) := by
          simp [submit, hp, hc, hm0]
        refine ⟨?_, fun _ => by rw [hsub], fun h => absurd h hc⟩
        constructor
        · intro _
          exact ⟨hc, hm0⟩
        · intro _
          rw [hsub]

/-- An instance of the amended C9: `ab!` is rejected by `shortenUrl` with nothing stored; the
13-character code is rejected by `submit` with nothing stored; a blank code gets no format
error from `submit`, which creates the record under the generated code `000000`. -/
theorem requested_code_format_witness :
    (∃ s1, shortenUrl schemeParser 1000 zeroRand 0 dupStore "https://example.com/page"
        (some (JsNum.fin 30)) (some "ab!") =
          some (Result.error ServiceError.invalidCodeFormat, s1) ∧ s1 = dupStore) ∧
    ((submit schemeParser 1000 zeroBytes "http://localhost:3000" dupTable
        "https://example.com/page" "abcdefghijklm" (JsNum.fin 30)).1 =
        SubmitOutcome.formError "Custom shortcode must be 4–12 chars [A-Za-z0-9_-]" ∧
      (submit schemeParser 1000 zeroBytes "http://localhost:3000" dupTable
        "https://example.com/page" "abcdefghijklm" (JsNum.fin 30)).2 = dupTable) ∧
    ((submit schemeParser 1000 zeroBytes "http://localhost:3000" dupTable
        "https://example.com/page" "   " (JsNum.fin 30)).1 ≠
        SubmitOutcome.formError "Custom shortcode must be 4–12 chars [A-Za-z0-9_-]" ∧
      (submit schemeParser 1000 zeroBytes "http://localhost:3000" dupTable
        "https://example.com/page" "   " (JsNum.fin 30)).1 =
        SubmitOutcome.created "000000" "http://localhost:3000/000000") := by
  have h := requested_code_format schemeParser
  have hs := h.1 1000 zeroRand 0 dupStore "https://example.com/page" (some (JsNum.fin 30))
    (some "ab!") (by decide) validity30_accepted
  obtain ⟨s1, h1⟩ := hs.1.2 ⟨"ab!", rfl, by decide, by decide⟩
  have hlong := h.2.2.2.1 1000 zeroBytes "http://localhost:3000" dupTable
    "https://example.com/page" "abcdefghijklm" (JsNum.fin 30) (by decide)
  have hblank := h.2.2.2.1 1000 zeroBytes "http://localhost:3000" dupTable
    "https://example.com/page" "   " (JsNum.fin 30) (by decide)
  have hl1 := hlong.1.2 ⟨by decide, by decide⟩
  have hb0 : jsTrim "   " = "" := by decide
  have hg : generateUnique zeroBytes (fun _ => mapKeys dupTable) 6 50 = "000000" := by decide
  have ho : objTruthy dupTable "000000" = false := by decide
  have hurl : ("http://localhost:3000" ++ "/" ++ "000000" : String) =
      "http://localhost:3000/000000" := by decide
  refine ⟨⟨s1, h1, hs.2 s1 h1⟩, ⟨hl1, hlong.2.1 hl1⟩, ?_, ?_⟩
  · intro hcontra
    exact (hblank.1.1 hcontra).1 hb0
  · rw [hblank.2.2 hb0, hg]
    simp [submitCreate, createMapping, ho, hurl]

/-- The counterexample to C9 as stated: the 13-character code `abcdefghijklm` does not match
`[A-Za-z0-9_-]{4,12}`, yet `shortenUrl` accepts it and stores the record under it. -/
theorem long_code_accepted :
    matches4to12 "abcdefghijklm" = false ∧
    ∃ res s1,
      shortenUrl schemeParser 1000 zeroRand 0 UrlService.new "https://example.com/page"
        (some (JsNum.fin 30)) (some "abcdefghijklm") = some (Result.ok res, s1) ∧
      res.data.shortCode = "abcdefghijklm" ∧
      mapGet s1.urlMappings "abcdefghijklm" = some res.data :=
  ⟨by decide, _, _, shortenUrl_custom_ok schemeParser 1000 zeroRand 0 UrlService.new
    "https://example.com/page" (some (JsNum.fin 30)) "abcdefghijklm" (by decide)
    validity30_accepted (by decide) (by decide) (by decide), rfl, mapGet_mapSet_same _ _ _⟩

/-! ### Generated codes -/

theorem characters_length : characters.length = 62 := by decide
theorem ALPH_length : ALPH.length = 62 := by decide

/-- Every in-range position of `characters` holds one alphanumeric character. -/
theorem charAt_characters (i : ℕ) (h : i < 62) :
    ∃ c ∈ characters.data, charAt characters i = String.singleton c ∧
      c.isAlphanum = true := by
  revert i
  decide

theorem charAt_ALPH (i : ℕ) (h : i < 62) :
    ∃ c ∈ ALPH.data, charAt ALPH i = String.singleton c ∧ c.isAlphanum = true := by
  revert i
  decide

/-- Appending one-character strings: the length grows by one per string and every character
comes from the start or satisfies the property of the appended characters. -/
theorem foldl_singletons (P : Char → Prop) (l : List String)
    (hl : ∀ s ∈ l, ∃ c, P c ∧ s = String.singleton c) (init : String) :
    (l.foldl (fun r s => r ++ s) init).length = init.length + l.length ∧
    ∀ ch ∈ (l.foldl (fun r s => r ++ s) init).data, ch ∈ init.data ∨ P ch := by
  induction l generalizing init with
  | nil => exact ⟨by simp, fun ch h => Or.inl h⟩
  | cons s rest ih =>
    obtain ⟨c, hc, hs⟩ := hl s (List.mem_cons_self _ _)
    have hlen : (String.singleton c).length = 1 := rfl
    have hdata : (String.singleton c).data = [c] := rfl
    have ih2 := ih (fun t ht => hl t (List.mem_cons_of_mem _ ht)) (init ++ s)
    simp only [List.foldl_cons]
    refine ⟨?_, ?_⟩
    · rw [ih2.1, String.length_append, hs, hlen, List.length_cons]
      omega
    · intro ch hch
      rcases ih2.2 ch hch with h | h
      · rw [String.data_append, List.mem_append] at h
        rcases h with h | h
        · exact Or.inl h
        · rw [hs, hdata, List.mem_singleton] at h
          exact Or.inr (h ▸ hc)
      · exact Or.inr h

theorem floorMul_lt (r : Rand01) (n : ℕ) (hn : 0 < n) : r.floorMul n < n := by
  unfold Rand01.floorMul
  have hd : 0 < r.den := lt_of_le_of_lt (Nat.zero_le _) r.lt
  rw [Nat.div_lt_iff_lt_mul hd]
  exact Nat.mul_lt_mul_of_lt_of_le r.lt (le_refl n) hn |>.trans_le (by rw [Nat.mul_comm])

/-- `generateShortCode` yields six characters of its alphabet, all alphanumeric. -/
theorem generateShortCode_format (rnd : ℕ → Rand01) (pos : ℕ) :
    (generateShortCode rnd pos).length = 6 ∧
    ∀ ch ∈ (generateShortCode rnd pos).data,
      ch ∈ characters.data ∧ ch.isAlphanum = true := by
  have hmap : generateShortCode rnd pos =
      ((List.range 6).map fun i =>
        charAt characters ((rnd (pos + i)).floorMul characters.length)).foldl
        (fun r s => r ++ s) "" := by
    unfold generateShortCode
    rw [List.foldl_map]
  have h := foldl_singletons (fun c => c ∈ characters.data ∧ c.isAlphanum = true)
    ((List.range 6).map fun i =>
      charAt characters ((rnd (pos + i)).floorMul characters.length))
    (by
      intro s hs
      simp only [List.mem_map] at hs
      obtain ⟨i, _, hi⟩ := hs
      have hlt : (rnd (pos + i)).floorMul characters.length < 62 := by
        rw [characters_length]
        exact floorMul_lt _ 62 (by norm_num)
      obtain ⟨c, hc1, hc2, hc3⟩ := charAt_characters _ hlt
      exact ⟨c, ⟨hc1, hc3⟩, by rw [← hi, hc2]⟩) ""
  rw [hmap]
  refine ⟨by simpa using h.1, ?_⟩
  intro ch hch
  rcases h.2 ch hch with h1 | h1
  · simp at h1
  · exact h1

/-- `randomShort(len)` yields `len` characters of `ALPH`, all alphanumeric. -/
theorem randomShort_format (bytes : ℕ → ℕ) (pos len : ℕ) :
    (randomShort bytes pos len).length = len ∧
    ∀ ch ∈ (randomShort bytes pos len).data, ch ∈ ALPH.data ∧ ch.isAlphanum = true := by
  have h := foldl_singletons (fun c => c ∈ ALPH.data ∧ c.isAlphanum = true)
    ((List.range len).map fun i => charAt ALPH ((bytes (pos + i) % 256) % ALPH.length))
    (by
      intro s hs
      simp only [List.mem_map] at hs
      obtain ⟨i, _, hi⟩ := hs
      have hlt : (bytes (pos + i) % 256) % ALPH.length < 62 := by
        rw [ALPH_length]
        exact Nat.mod_lt _ (by norm_num)
      obtain ⟨c, hc1, hc2, hc3⟩ := charAt_ALPH _ hlt
      exact ⟨c, ⟨hc1, hc3⟩, by rw [← hi, hc2]⟩) ""
  have hj : randomShort bytes pos len =
      ((List.range len).map fun i =>
        charAt ALPH ((bytes (pos + i) % 256) % ALPH.length)).foldl (fun r s => r ++ s) "" := by
    unfold randomShort String.join
    rfl
  rw [hj]
  refine ⟨by simpa using h.1, ?_⟩
  intro ch hch
  rcases h.2 ch hch with h1 | h1
  · simp at h1
  · exact h1

theorem generateLoop_spec (m : List (String × UrlData)) (rnd : ℕ → Rand01) (fuel pos : ℕ)
    (code : String) (h : generateLoop m rnd fuel pos = some code) :
    ∃ k, k < fuel ∧ code = generateShortCode rnd (pos + 6 * k) ∧ mapHas m code = false ∧
      ∀ j, j < k → mapHas m (generateShortCode rnd (pos + 6 * j)) = true := by
  induction fuel generalizing pos with
  | zero => simp [generateLoop] at h
  | succ fuel ih =>
    simp only [generateLoop] at h
    by_cases hc : mapHas m (generateShortCode rnd pos) = true
    · rw [if_pos hc] at h
      obtain ⟨k, hk, hcode, hf, hprev⟩ := ih _ h
      refine ⟨k + 1, by omega, ?_, hf, ?_⟩
      · rw [hcode]; congr 1; ring
      · intro j hj
        cases j with
        | zero => simpa using hc
        | succ j =>
          have := hprev j (by omega)
          rw [← this]; congr 2; ring
    · rw [if_neg hc] at h
      simp only [Option.some.injEq] at h
      subst h
      exact ⟨0, by omega, by simp, by simpa using hc, fun j hj => absurd hj (by omega)⟩

theorem generateLoop_total (m : List (String × UrlData)) (rnd : ℕ → Rand01) (fuel pos k : ℕ)
    (hk : mapHas m (generateShortCode rnd (pos + 6 * k)) = false) (hf : k < fuel) :
    ∃ code, generateLoop m rnd fuel pos = some code := by
  induction fuel generalizing pos k with
  | zero => omega
  | succ fuel ih =>
    simp only [generateLoop]
    by_cases hc : mapHas m (generateShortCode rnd pos) = true
    · rw [if_pos hc]
      cases k with
      | zero => simp [hc] at hk
      | succ k =>
        apply ih (pos + 6) k _ (by omega)
        rw [← hk]; congr 2; ring
    · rw [if_neg hc]
      exact ⟨_, rfl⟩

/-- What `generateUnique` returns: the first candidate outside the key list, or, when all
`tries` candidates are in it, one more draw two characters longer. -/
theorem generateUniqueFrom_spec (bytes : ℕ → ℕ) (getKeys : Unit → List String)
    (len tries pos : ℕ) :
    (∃ i, i < tries ∧
      generateUniqueFrom bytes getKeys len tries pos = randomShort bytes (pos + i * len) len ∧
      randomShort bytes (pos + i * len) len ∉ getKeys () ∧
      ∀ j, j < i → randomShort bytes (pos + j * len) len ∈ getKeys ()) ∨
    ((∀ j, j < tries → randomShort bytes (pos + j * len) len ∈ getKeys ()) ∧
      generateUniqueFrom bytes getKeys len tries pos =
        randomShort bytes (pos + tries * len) (len + 2)) := by
  induction tries generalizing pos with
  | zero =>
    right
    exact ⟨fun j hj => absurd hj (by omega), by simp [generateUniqueFrom]⟩
  | succ tries ih =>
    simp only [generateUniqueFrom]
    by_cases hc : randomShort bytes pos len ∈ getKeys ()
    · have hcc : (!(getKeys ()).contains (randomShort bytes pos len)) = false := by
        simp [hc]
      rw [if_neg (by simp [hc])]
      have hshift : ∀ j, pos + len + j * len = pos + (j + 1) * len := by intro j; ring
      rcases ih (pos + len) with ⟨i, hi, hg, hfresh, hprev⟩ | ⟨hall, hg⟩
      · left
        refine ⟨i + 1, by omega, ?_, ?_, ?_⟩
        · rw [hg, hshift]
        · rw [← hshift]; exact hfresh
        · intro j hj
          cases j with
          | zero => simpa using hc
          | succ j => rw [← hshift]; exact hprev j (by omega)
      · right
        refine ⟨?_, ?_⟩
        · intro j hj
          cases j with
          | zero => simpa using hc
          | succ j => rw [← hshift]; exact hall j (by omega)
        · rw [hg, hshift]
    · left
      have hcc : (!(getKeys ()).contains (randomShort bytes pos len)) = true := by
        simp [hc]
      rw [if_pos hcc]
      exact ⟨0, by omega, by simp, by simpa using hc, fun j hj => absurd hj (by omega)⟩

/-- C10, as amended.  Both alphabets have 62 symbols.  The code the `UrlService` loop produces
has exactly 6 characters of its alphabet, all alphanumeric, and is not a key of `urlMappings`;
the loop does produce one as soon as some round draws a code that is not a key; and a
`shortenUrl` without requested code stores its record under such a code.  `generateUnique`
returns characters of `ALPH` only, and either a code of the configured length that is not in the
key list, or, when every one of its `tries` candidates is in the key list, a code two
characters longer that was not checked against the key list. -/
theorem generated_code_format (parseUrl : String → Bool) :
    (characters.length = 62 ∧ ALPH.length = 62) ∧
    (∀ (m : List (String × UrlData)) (rnd : ℕ → Rand01) (fuel pos : ℕ) (code : String),
        generateLoop m rnd fuel pos = some code →
        code.length = 6 ∧
        (∀ ch ∈ code.data, ch ∈ characters.data ∧ ch.isAlphanum = true) ∧
        mapHas m code = false) ∧
    (∀ (m : List (String × UrlData)) (rnd : ℕ → Rand01) (fuel pos k : ℕ),
        mapHas m (generateShortCode rnd (pos + 6 * k)) = false → k < fuel →
        ∃ code, generateLoop m rnd fuel pos = some code) ∧
    (∀ (now : ℤ) (rnd : ℕ → Rand01) (fuel : ℕ) (s : UrlService) (longUrl : String)
        (v : Option JsNum) (res : ShortenResult) (s1 : UrlService),
        shortenUrl parseUrl now rnd fuel s longUrl v none = some (Result.ok res, s1) →
        res.data.shortCode.length = 6 ∧
        (∀ ch ∈ res.data.shortCode.data, ch ∈ characters.data ∧ ch.isAlphanum = true) ∧
        mapHas s.urlMappings res.data.shortCode = false ∧
        mapGet s1.urlMappings res.data.shortCode = some res.data) ∧
    (∀ (bytes : ℕ → ℕ) (getKeys : Unit → List String) (len tries : ℕ),
        (∀ ch ∈ (generateUnique bytes getKeys len tries).data,
          ch ∈ ALPH.data ∧ ch.isAlphanum = true) ∧
        (((generateUnique bytes getKeys len tries).length = len ∧
            generateUnique bytes getKeys len tries ∉ getKeys ()) ∨
          ((generateUnique bytes getKeys len tries).length = len + 2 ∧
            ∀ j, j < tries → randomShort bytes (j * len) len ∈ getKeys ()))) := by
  refine ⟨⟨characters_length, ALPH_length⟩, ?_, ?_, ?_, ?_⟩
  · intro m rnd fuel pos code h
    obtain ⟨k, _, hcode, hf, _⟩ := generateLoop_spec m rnd fuel pos code h
    have hfmt := generateShortCode_format rnd (pos + 6 * k)
    rw [← hcode] at hfmt
    exact ⟨hfmt.1, hfmt.2, hf⟩
  · intro m rnd fuel pos k hk hf
    exact generateLoop_total m rnd fuel pos k hk hf
  · intro now rnd fuel s longUrl v res s1 h
    obtain ⟨code, hf, hsrc, hi⟩ := shortenUrl_ok_inv _ _ _ _ _ _ _ _ _ _ h
    have hstored := (shortenUrl_ok_stored _ _ _ _ _ _ _ _ _ _ h).1
    have hcode : res.data.shortCode = code := by
      simp only [insertRecord, Prod.mk.injEq, Result.ok.injEq] at hi
      rw [← hi.1]
    rcases hsrc with ⟨hcus, _⟩ | ⟨_, hg⟩
    · simp at hcus
    · obtain ⟨k, _, hk, _, _⟩ := generateLoop_spec _ _ _ _ _ hg
      have hfmt := generateShortCode_format rnd (0 + 6 * k)
      rw [← hk, ← hcode] at hfmt
      rw [← hcode] at hf
      exact ⟨hfmt.1, hfmt.2, hf, hstored⟩
  · intro bytes getKeys len tries
    unfold generateUnique
    rcases generateUniqueFrom_spec bytes getKeys len tries 0 with
      ⟨i, _, hg, hfresh, _⟩ | ⟨hall, hg⟩
    · rw [hg]
      have hfmt := randomShort_format bytes (0 + i * len) len
      exact ⟨hfmt.2, Or.inl ⟨hfmt.1, hfresh⟩⟩
    · rw [hg]
      have hfmt := randomShort_format bytes (0 + tries * len) (len + 2)
      refine ⟨hfmt.2, Or.inr ⟨hfmt.1, ?_⟩⟩
      intro j hj
      simpa using hall j hj

/-- A request without a code, with a parsable URL and an accepted validity, stores its record
under the code the generation loop produces. -/
theorem shortenUrl_generated_ok (parseUrl : String → Bool) (now : ℤ) (rnd : ℕ → Rand01)
    (fuel : ℕ) (s : UrlService) (longUrl : String) (v : Option JsNum) (code : String)
    (hp : parseUrl longUrl = true)
    (hv : ((v.getD (JsNum.fin 30)).truthy &&
      ((v.getD (JsNum.fin 30)).isNaN || (v.getD (JsNum.fin 30)).le0)) = false)
    (hg : generateLoop s.urlMappings rnd fuel 0 = some code) :
    shortenUrl parseUrl now rnd fuel s longUrl v none =
      some (insertRecord now s longUrl (v.getD (JsNum.fin 30)) code) := by
  unfold shortenUrl
  simp [hp, hv, hg]

/-- An instance of the amended C10: with all draws zero, on the store holding only `dup1`, the
first candidate of the service loop, `AAAAAA`, is free and `shortenUrl` stores the record under
it; `generateUnique` on the key list holding only `dup1` returns `000000`. -/
theorem generated_code_format_witness :
    (∃ res s1,
      shortenUrl schemeParser 1000 zeroRand 1 dupStore "https://example.com/page" none none =
        some (Result.ok res, s1) ∧
      res.data.shortCode = "AAAAAA" ∧ res.data.shortCode.length = 6 ∧
      mapHas dupStore.urlMappings res.data.shortCode = false ∧
      mapGet s1.urlMappings res.data.shortCode = some res.data) ∧
    generateUnique zeroBytes (fun _ => ["dup1"]) 6 50 = "000000" ∧
    ((generateUnique zeroBytes (fun _ => ["dup1"]) 6 50).length = 6 ∧
        generateUnique zeroBytes (fun _ => ["dup1"]) 6 50 ∉ ["dup1"] ∨
      (generateUnique zeroBytes (fun _ => ["dup1"]) 6 50).length = 6 + 2 ∧
        ∀ j, j < 50 → randomShort zeroBytes (j * 6) 6 ∈ ["dup1"]) :=
  have h := generated_code_format schemeParser
  have h0 := shortenUrl_generated_ok schemeParser 1000 zeroRand 1 dupStore
    "https://example.com/page" none "AAAAAA" (by decide) validity30_accepted (by decide)
  have h1 := h.2.2.2.1 1000 zeroRand 1 dupStore "https://example.com/page" none _ _ h0
  ⟨⟨_, _, h0, rfl, h1.1, h1.2.2.1, h1.2.2.2⟩, by decide,
    (h.2.2.2.2 zeroBytes (fun _ => ["dup1"]) 6 50).2⟩

/-- The counterexample to C10 as stated: when the key list holds `000000` and `00000000` and
every random byte is zero, all 50 candidates are `000000`, and `generateUnique(getKeys, 6)`
returns `00000000`: 8 characters, not 6, and a member of the key list.  `submit` then passes it
to `createMapping`, which throws. -/
theorem fallback_code_not_six_not_fresh :
    generateUnique zeroBytes (fun _ => mapKeys zeroTable) 6 50 = "00000000" ∧
    (generateUnique zeroBytes (fun _ => mapKeys zeroTable) 6 50).length = 8 ∧
    generateUnique zeroBytes (fun _ => mapKeys zeroTable) 6 50 ∈ mapKeys zeroTable ∧
    submit schemeParser 1000 zeroBytes "http://localhost:3000" zeroTable
        "https://example.com/page" "" (JsNum.fin 30) =
      (SubmitOutcome.thrown StoreError.shortcodeExists, zeroTable) := by
  have hg : generateUnique zeroBytes (fun _ => mapKeys zeroTable) 6 50 = "00000000" := by
    decide
  have hp : schemeParser "https://example.com/page" = true := by decide
  have ht : jsTrim "" = "" := by decide
  have ho : objTruthy zeroTable "00000000" = true := by decide
  refine ⟨hg, by rw [hg]; decide, by rw [hg]; decide, ?_⟩
  simp [submit, submitCreate, createMapping, hp, ht, hg, ho]

/-! ### Distribution of one draw -/

theorem randomShort_one (bytes : ℕ → ℕ) (pos : ℕ) :
    randomShort bytes pos 1 = charAt ALPH ((bytes pos % 256) % ALPH.length) := by
  simp [randomShort, List.range_succ, String.join]

theorem bytesMappedTo_low : ∀ k, k < 8 → bytesMappedTo (charAt ALPH k) = 5 := by
  decide

theorem bytesMappedTo_high : ∀ k, k < 62 → 8 ≤ k → bytesMappedTo (charAt ALPH k) = 4 := by
  decide

theorem ALPH_nodup : ALPH.data.Nodup := by decide

/-- C11, as amended.  `randomShort` writes, for each byte `n` of its buffer, the symbol
`ALPH[n mod 62]`, position by position.  The 62 symbols of `ALPH` are pairwise different, and
the byte values `0..255` are not shared out evenly among them: each of the first 8 symbols
(`0` to `7`) is the image of 5 byte values and each of the other 54 symbols of 4. -/
theorem draw_distribution :
    (∀ (bytes : ℕ → ℕ) (pos : ℕ),
        randomShort bytes pos 1 = charAt ALPH ((bytes pos % 256) % 62)) ∧
    (∀ (bytes : ℕ → ℕ) (pos len : ℕ),
        randomShort bytes pos len =
          String.join ((List.range len).map fun i => randomShort bytes (pos + i) 1)) ∧
    ALPH.length = 62 ∧ ALPH.data.Nodup ∧
    (∀ k, k < 8 → bytesMappedTo (charAt ALPH k) = 5) ∧
    (∀ k, k < 62 → 8 ≤ k → bytesMappedTo (charAt ALPH k) = 4) := by
  refine ⟨?_, ?_, ALPH_length, ALPH_nodup, bytesMappedTo_low, bytesMappedTo_high⟩
  · intro bytes pos
    rw [randomShort_one, ALPH_length]
  · intro bytes pos len
    simp only [randomShort_one]
    rfl

/-- An instance of the amended C11: the byte 62 is written as `0`; the symbol `0` is the image
of 5 byte values and the symbol `Z` of 4. -/
theorem draw_distribution_witness :
    randomShort (fun _ => 62) 0 1 = "0" ∧ bytesMappedTo "0" = 5 ∧ bytesMappedTo "Z" = 4 :=
  ⟨(draw_distribution.1 (fun _ => 62) 0).trans (by decide),
   draw_distribution.2.2.2.2.1 0 (by decide),
   draw_distribution.2.2.2.2.2 61 (by decide) (by decide)⟩

/-- The counterexample to C11 as stated: the symbols `0` and `8` do not have the same number
of byte values mapped to them (5 against 4), since 256 is not a multiple of 62. -/
theorem draw_not_uniform :
    bytesMappedTo "0" = 5 ∧ bytesMappedTo "8" = 4 ∧ bytesMappedTo "0" ≠ bytesMappedTo "8" := by
  decide

/-! ### Bounded retry -/

theorem generateUniqueCount_fst (bytes : ℕ → ℕ) (getKeys : Unit → List String)
    (len tries pos : ℕ) :
    (generateUniqueCount bytes getKeys len tries pos).1 =
      generateUniqueFrom bytes getKeys len tries pos := by
  induction tries generalizing pos with
  | zero => rfl
  | succ tries ih =>
    simp only [generateUniqueCount, generateUniqueFrom]
    split_ifs
    · rfl
    · exact ih (pos + len)

theorem generateUniqueCount_snd_le (bytes : ℕ → ℕ) (getKeys : Unit → List String)
    (len tries pos : ℕ) :
    1 ≤ (generateUniqueCount bytes getKeys len tries pos).2 ∧
    (generateUniqueCount bytes getKeys len tries pos).2 ≤ tries + 1 := by
  induction tries generalizing pos with
  | zero => simp [generateUniqueCount]
  | succ tries ih =>
    simp only [generateUniqueCount]
    split_ifs
    · simp
    · have := ih (pos + len)
      simp only
      omega

/-- When candidate `i` is the first one outside the key list, it is returned after `i + 1`
draws. -/
theorem generateUniqueCount_first (bytes : ℕ → ℕ) (getKeys : Unit → List String)
    (len tries pos i : ℕ) (hi : i < tries)
    (hfree : randomShort bytes (pos + i * len) len ∉ getKeys ())
    (hprev : ∀ j, j < i → randomShort bytes (pos + j * len) len ∈ getKeys ()) :
    generateUniqueCount bytes getKeys len tries pos =
      (randomShort bytes (pos + i * len) len, i + 1) := by
  induction tries generalizing pos i with
  | zero => omega
  | succ tries ih =>
    simp only [generateUniqueCount]
    cases i with
    | zero =>
      have h0 : randomShort bytes pos len ∉ getKeys () := by simpa using hfree
      simp [h0]
    | succ i =>
      have h0 : randomShort bytes pos len ∈ getKeys () := by simpa using hprev 0 (by omega)
      have hshift : ∀ j, pos + len + j * len = pos + (j + 1) * len := by intro j; ring
      have := ih (pos + len) i (by omega) (by rw [hshift]; exact hfree)
        (fun j hj => by rw [hshift]; exact hprev (j + 1) (by omega))
      simp [h0, this, hshift]

/-- When all `tries` candidates are in the key list, the longer draw is returned after
`tries + 1` draws. -/
theorem generateUniqueCount_fallback (bytes : ℕ → ℕ) (getKeys : Unit → List String)
    (len tries pos : ℕ)
    (hall : ∀ j, j < tries → randomShort bytes (pos + j * len) len ∈ getKeys ()) :
    generateUniqueCount bytes getKeys len tries pos =
      (randomShort bytes (pos + tries * len) (len + 2), tries + 1) := by
  induction tries generalizing pos with
  | zero => simp [generateUniqueCount]
  | succ tries ih =>
    simp only [generateUniqueCount]
    have h0 : randomShort bytes pos len ∈ getKeys () := by simpa using hall 0 (by omega)
    have hshift : ∀ j, pos + len + j * len = pos + (j + 1) * len := by intro j; ring
    have := ih (pos + len) (fun j hj => by rw [hshift]; exact hall (j + 1) (by omega))
    simp [h0, this, hshift]

/-- C12 (bounded retry with fallback).  `generateUnique` is a total function of the key lookup,
the length, the attempt limit and the byte stream.  If candidate `i < tries` is the first one
that is not in the key list, it is the value returned, after `i + 1` draws.  If all `tries`
candidates are in the key list, the value returned is one further draw of length `len + 2`,
whatever the key list holds, after `tries + 1` draws.  In every case at least one and at most
`tries + 1` draws are made. -/
theorem bounded_retry (bytes : ℕ → ℕ) (getKeys : Unit → List String) (len tries : ℕ) :
    (∀ i, i < tries → randomShort bytes (i * len) len ∉ getKeys () →
        (∀ j, j < i → randomShort bytes (j * len) len ∈ getKeys ()) →
        generateUnique bytes getKeys len tries = randomShort bytes (i * len) len ∧
        (generateUniqueCount bytes getKeys len tries 0).2 = i + 1) ∧
    ((∀ j, j < tries → randomShort bytes (j * len) len ∈ getKeys ()) →
        generateUnique bytes getKeys len tries = randomShort bytes (tries * len) (len + 2) ∧
        (generateUniqueCount bytes getKeys len tries 0).2 = tries + 1) ∧
    (generateUniqueCount bytes getKeys len tries 0).1 = generateUnique bytes getKeys len tries ∧
    1 ≤ (generateUniqueCount bytes getKeys len tries 0).2 ∧
    (generateUniqueCount bytes getKeys len tries 0).2 ≤ tries + 1 := by
  have hfst := generateUniqueCount_fst bytes getKeys len tries 0
  refine ⟨?_, ?_, hfst, generateUniqueCount_snd_le bytes getKeys len tries 0⟩
  · intro i hi hfree hprev
    have h := generateUniqueCount_first bytes getKeys len tries 0 i hi (by simpa using hfree)
      (fun j hj => by simpa using hprev j hj)
    unfold generateUnique
    rw [← hfst, h]
    simp
  · intro hall
    have h := generateUniqueCount_fallback bytes getKeys len tries 0
      (fun j hj => by simpa using hall j hj)
    unfold generateUnique
    rw [← hfst, h]
    simp

/-- An instance of C12 with all bytes zero: on the key list holding only `dup1` the first
candidate `000000` is returned after one draw; on the key list of `000000` and `00000000` all
50 candidates are taken and the 8-character draw `00000000` is returned after 51 draws,
although it is in the key list. -/
theorem bounded_retry_witness :
    (generateUnique zeroBytes (fun _ => ["dup1"]) 6 50 = "000000" ∧
      (generateUniqueCount zeroBytes (fun _ => ["dup1"]) 6 50 0).2 = 1) ∧
    (generateUnique zeroBytes (fun _ => mapKeys zeroTable) 6 50 = "00000000" ∧
      (generateUniqueCount zeroBytes (fun _ => mapKeys zeroTable) 6 50 0).2 = 51 ∧
      "00000000" ∈ mapKeys zeroTable) :=
  have h1 := (bounded_retry zeroBytes (fun _ => ["dup1"]) 6 50).1 0 (by decide) (by decide)
    (fun j hj => absurd hj (Nat.not_lt_zero j))
  have h2 := (bounded_retry zeroBytes (fun _ => mapKeys zeroTable) 6 50).2.1 (by decide)
  ⟨⟨h1.1.trans (by decide), h1.2⟩, ⟨h2.1.trans (by decide), h2.2, by decide⟩⟩

/-! ### Well-formed states -/

theorem wellFormed_new : WellFormed UrlService.new := by
  refine ⟨rfl, ?_, ?_, ?_⟩
  · intro k d h; simp [UrlService.new, mapGet] at h
  · intro k d h; simp [UrlService.new, mapGet] at h
  · intro k1 k2 d1 d2 h; simp [UrlService.new, mapGet] at h

/-- In a well-formed state every stored code has a click list. -/
theorem wellFormed_clickList (s : UrlService) (hs : WellFormed s) (k : String) (d : UrlData)
    (hd : mapGet s.urlMappings k = some d) : ∃ l, mapGet s.clickData k = some l := by
  have h1 : mapHas s.urlMappings k = true := by simp [mapHas, hd]
  rw [mapHas_eq_true_iff, hs.1, ← mapHas_eq_true_iff] at h1
  cases hl : mapGet s.clickData k with
  | none => simp [mapHas, hl] at h1
  | some l => exact ⟨l, rfl⟩

theorem wellFormed_insertRecord (now : ℤ) (s : UrlService) (longUrl : String) (v : JsNum)
    (c : String) (hf : mapHas s.urlMappings c = false) (hs : WellFormed s) :
    WellFormed (insertRecord now s longUrl v c).2 := by
  obtain ⟨hkeys, hcode, hid, hdist⟩ := hs
  have hf2 : mapHas s.clickData c = false := by
    rw [mapHas_eq_false_iff, ← hkeys, ← mapHas_eq_false_iff]
    exact hf
  have hnone : mapGet s.urlMappings c = none := by
    cases h : mapGet s.urlMappings c with
    | none => rfl
    | some d => simp [mapHas, h] at hf
  simp only [insertRecord]
  refine ⟨?_, ?_, ?_, ?_⟩
  · simp only
    rw [mapSet_of_not_has _ _ _ hf, mapSet_of_not_has _ _ _ hf2, mapKeys_append_single,
      mapKeys_append_single, hkeys]
  · intro k d hd
    simp only at hd
    by_cases hk : c = k
    · subst hk
      rw [mapGet_mapSet_same] at hd
      simp only [Option.some.injEq] at hd
      rw [← hd]
    · rw [mapGet_mapSet_ne _ _ _ _ hk] at hd
      exact hcode k d hd
  · intro k d hd
    simp only at hd ⊢
    by_cases hk : c = k
    · subst hk
      rw [mapGet_mapSet_same] at hd
      simp only [Option.some.injEq] at hd
      rw [← hd]
      exact Nat.lt_succ_self _
    · rw [mapGet_mapSet_ne _ _ _ _ hk] at hd
      exact Nat.lt_succ_of_lt (hid k d hd)
  · intro k1 k2 d1 d2 h1 h2 he
    simp only at h1 h2
    by_cases hk1 : c = k1
    · by_cases hk2 : c = k2
      · rw [← hk1, ← hk2]
      · subst hk1
        rw [mapGet_mapSet_same] at h1
        rw [mapGet_mapSet_ne _ _ _ _ hk2] at h2
        simp only [Option.some.injEq] at h1
        have := hid k2 d2 h2
        rw [← he, ← h1] at this
        exact absurd this (lt_irrefl _)
    · by_cases hk2 : c = k2
      · subst hk2
        rw [mapGet_mapSet_same] at h2
        rw [mapGet_mapSet_ne _ _ _ _ hk1] at h1
        simp only [Option.some.injEq] at h2
        have := hid k1 d1 h1
        rw [he, ← h2] at this
        exact absurd this (lt_irrefl _)
      · rw [mapGet_mapSet_ne _ _ _ _ hk1] at h1
        rw [mapGet_mapSet_ne _ _ _ _ hk2] at h2
        exact hdist k1 k2 d1 d2 h1 h2 he

/-- In a well-formed state `getUrl` either returns the state unchanged with the not-found or
the expired error, or takes the successful path. -/
theorem getUrl_cases (now clickTime : ℤ) (userAgent : String) (r : Rand01) (s : UrlService)
    (c : String) (hs : WellFormed s) :
    getUrl now clickTime userAgent r s c = (Result.error ServiceError.notFound, s) ∨
    getUrl now clickTime userAgent r s c = (Result.error ServiceError.expired, s) ∨
    ∃ d l, mapGet s.urlMappings c = some d ∧ mapGet s.clickData c = some l ∧
      getUrl now clickTime userAgent r s c =
        (Result.ok { d with clicks := d.clicks + 1 },
          { urlMappings := mapSet s.urlMappings c { d with clicks := d.clicks + 1 },
            clickData := mapSet s.clickData c
              (l ++ [{ timestamp := clickTime, source := userAgent,
                       location := getCoarseLocation r }]),
            nextId := s.nextId }) := by
  cases hd : mapGet s.urlMappings c with
  | none =>
    left
    simp [getUrl, hd]
  | some d =>
    by_cases he : JsNum.gt (JsNum.fin now) (dateValue d.expiresAt) = true
    · right; left
      simp [getUrl, hd, he]
    · right; right
      obtain ⟨l, hl⟩ := wellFormed_clickList s hs c d hd
      exact ⟨d, l, rfl, hl,
        getUrl_ok now clickTime userAgent r s c d l hd (by simpa using he) hl⟩

theorem wellFormed_getUrl (now clickTime : ℤ) (userAgent : String) (r : Rand01)
    (s : UrlService) (c : String) (hs : WellFormed s) :
    WellFormed (getUrl now clickTime userAgent r s c).2 := by
  rcases getUrl_cases now clickTime userAgent r s c hs with h | h | ⟨d, l, hd, hl, h⟩
  · rw [h]; exact hs
  · rw [h]; exact hs
  · rw [h]
    obtain ⟨hkeys, hcode, hid, hdist⟩ := hs
    have hh1 : mapHas s.urlMappings c = true := by simp [mapHas, hd]
    have hh2 : mapHas s.clickData c = true := by simp [mapHas, hl]
    have hget : ∀ k d1, mapGet (mapSet s.urlMappings c { d with clicks := d.clicks + 1 }) k =
        some d1 → ∃ d0, mapGet s.urlMappings k = some d0 ∧ d1.shortCode = d0.shortCode ∧
          d1.id = d0.id := by
      intro k d1 h1
      by_cases hk : c = k
      · subst hk
        rw [mapGet_mapSet_same] at h1
        simp only [Option.some.injEq] at h1
        exact ⟨d, hd, by rw [← h1], by rw [← h1]⟩
      · rw [mapGet_mapSet_ne _ _ _ _ hk] at h1
        exact ⟨d1, h1, rfl, rfl⟩
    refine ⟨?_, ?_, ?_, ?_⟩
    · simp only
      rw [mapKeys_mapSet_of_has _ _ _ hh1, mapKeys_mapSet_of_has _ _ _ hh2, hkeys]
    · intro k d1 h1
      obtain ⟨d0, h0, hsc, _⟩ := hget k d1 h1
      rw [hsc]
      exact hcode k d0 h0
    · intro k d1 h1
      obtain ⟨d0, h0, _, hi⟩ := hget k d1 h1
      simp only
      rw [hi]
      exact hid k d0 h0
    · intro k1 k2 d1 d2 h1 h2 he
      obtain ⟨e1, g1, _, i1⟩ := hget k1 d1 h1
      obtain ⟨e2, g2, _, i2⟩ := hget k2 d2 h2
      exact hdist k1 k2 e1 e2 g1 g2 (by rw [← i1, ← i2, he])

theorem step_wellFormed (parseUrl : String → Bool) (s s1 : UrlService) (call : Call)
    (h : step parseUrl s call = some s1) (hs : WellFormed s) : WellFormed s1 := by
  cases call with
  | shorten now rnd fuel longUrl v custom =>
    simp only [step, Option.map_eq_some'] at h
    obtain ⟨⟨res, s2⟩, h1, h2⟩ := h
    simp only at h2
    subst h2
    cases res with
    | error e =>
      rw [shortenUrl_error_state _ _ _ _ _ _ _ _ _ _ h1]
      exact hs
    | ok r =>
      obtain ⟨c, hf, _, hi⟩ := shortenUrl_ok_inv _ _ _ _ _ _ _ _ _ _ h1
      have hs2 : s2 = (insertRecord now s longUrl (v.getD (JsNum.fin 30)) c).2 := by rw [hi]
      rw [hs2]
      exact wellFormed_insertRecord _ _ _ _ _ hf hs
  | resolve now clickTime userAgent r c =>
    simp only [step, Option.some.injEq] at h
    rw [← h]
    exact wellFormed_getUrl now clickTime userAgent r s c hs

theorem run_wellFormed (parseUrl : String → Bool) (calls : List Call) (s s1 : UrlService)
    (h : run parseUrl s calls = some s1) (hs : WellFormed s) : WellFormed s1 := by
  induction calls generalizing s with
  | nil =>
    simp only [run, Option.some.injEq] at h
    subst h
    exact hs
  | cons call rest ih =>
    simp only [run] at h
    cases hstep : step parseUrl s call with
    | none => simp [hstep] at h
    | some s2 =>
      rw [hstep] at h
      exact ih s2 h (step_wellFormed _ _ _ _ hstep hs)

/-- The sample session runs to a state that holds `abc123` with id 1, and `nextId` is 2. -/
theorem sampleCalls_run :
    ∃ s d, run schemeParser UrlService.new sampleCalls = some s ∧
      mapGet s.urlMappings "abc123" = some d ∧ d.id = 1 ∧ s.nextId = 2 := by
  have h0 := shortenUrl_custom_ok schemeParser 1000 zeroRand 0 UrlService.new
    "https://example.com/page" (some (JsNum.fin 30)) "abc123" (by decide) validity30_accepted
    (by decide) (by decide) (by decide)
  have hg := getUrl_ok 2000 2001 "ua" (zeroRand 0)
    (insertRecord 1000 UrlService.new "https://example.com/page" (JsNum.fin 30) "abc123").2
    "abc123"
    { id := 1, longUrl := "https://example.com/page", shortCode := "abc123", createdAt := 1000,
      expiresAt := newDate (JsNum.add (JsNum.fin ((1000 : ℤ) : ℚ))
        (JsNum.mul (JsNum.fin 30) (JsNum.fin 60000))), clicks := 0 }
    [] (mapGet_mapSet_same _ _ _) (not_gt_expiresAt 2000 1000 30 (by norm_num))
    (mapGet_mapSet_same _ _ _)
  have hrun : run schemeParser UrlService.new sampleCalls = some
      (getUrl 3000 3001 "ua" (zeroRand 0)
        (getUrl 2000 2001 "ua" (zeroRand 0)
          (insertRecord 1000 UrlService.new "https://example.com/page" (JsNum.fin 30)
            "abc123").2 "abc123").2 "zzzz").2 := by
    simp only [sampleCalls, run, step, h0, Option.map_some', Option.getD_some]
  rw [hg] at hrun
  have hnf : ∀ s0 : UrlService, mapGet s0.urlMappings "zzzz" = none →
      getUrl 3000 3001 "ua" (zeroRand 0) s0 "zzzz" = (Result.error ServiceError.notFound, s0) := by
    intro s0 h; simp [getUrl, h]
  rw [hnf _ (by simp [insertRecord, UrlService.new, mapSet, mapGet])] at hrun
  have hd := mapGet_mapSet_same
    (insertRecord 1000 UrlService.new "https://example.com/page" (JsNum.fin 30)
      "abc123").2.urlMappings "abc123"
    { id := 1, longUrl := "https://example.com/page", shortCode := "abc123", createdAt := 1000,
      expiresAt := newDate (JsNum.add (JsNum.fin ((1000 : ℤ) : ℚ))
        (JsNum.mul (JsNum.fin 30) (JsNum.fin 60000))), clicks := 0 + 1 }
  exact ⟨_, _, hrun, hd, rfl, rfl⟩

/-- C13 (store well-formedness).  In every state reached from the empty service by a sequence
of `shortenUrl` and `getUrl` calls: `urlMappings` and `clickData` have the same keys (in the
same order), every record's `shortCode` is the key it is stored under, every stored id is below
`nextId`, records under different keys have different ids; hence every stored code has a click
list and `getUrl` never fails on reading it. -/
theorem store_well_formed (parseUrl : String → Bool) (calls : List Call) (s : UrlService)
    (h : run parseUrl UrlService.new calls = some s) :
    (∀ k, mapHas s.urlMappings k = mapHas s.clickData k) ∧
    mapKeys s.urlMappings = mapKeys s.clickData ∧
    (∀ k d, mapGet s.urlMappings k = some d → d.shortCode = k) ∧
    (∀ k d, mapGet s.urlMappings k = some d → d.id < s.nextId) ∧
    (∀ k1 k2 d1 d2, mapGet s.urlMappings k1 = some d1 → mapGet s.urlMappings k2 = some d2 →
      k1 ≠ k2 → d1.id ≠ d2.id) ∧
    (∀ k d, mapGet s.urlMappings k = some d → ∃ l, mapGet s.clickData k = some l) ∧
    (∀ (now clickTime : ℤ) (userAgent : String) (r : Rand01) (code : String),
      (getUrl now clickTime userAgent r s code).1 ≠ Result.error ServiceError.typeError) := by
  have hs := run_wellFormed parseUrl calls _ _ h wellFormed_new
  refine ⟨?_, hs.1, hs.2.1, hs.2.2.1, ?_, wellFormed_clickList s hs, ?_⟩
  · intro k
    rw [Bool.eq_iff_iff, mapHas_eq_true_iff, mapHas_eq_true_iff, hs.1]
  · intro k1 k2 d1 d2 h1 h2 hne he
    exact hne (hs.2.2.2 k1 k2 d1 d2 h1 h2 he)
  · intro now clickTime userAgent r code
    rcases getUrl_cases now clickTime userAgent r s code hs with hg | hg | ⟨d, l, _, _, hg⟩
    · rw [hg]; simp
    · rw [hg]; simp
    · rw [hg]; simp

/-- An instance of C13: after the sample session the code `abc123` is a key of both maps, its
record carries that code and the id 1, below `nextId = 2`, and a further `getUrl` does not fail
on the click list. -/
theorem store_well_formed_witness :
    ∃ s d l, run schemeParser UrlService.new sampleCalls = some s ∧
      mapGet s.urlMappings "abc123" = some d ∧ mapGet s.clickData "abc123" = some l ∧
      d.shortCode = "abc123" ∧ d.id = 1 ∧ s.nextId = 2 ∧ d.id < s.nextId ∧
      mapKeys s.urlMappings = mapKeys s.clickData ∧
      (getUrl 5000 5001 "ua" (zeroRand 0) s "abc123").1 ≠
        Result.error ServiceError.typeError := by
  obtain ⟨s, d, hrun, hd, hid, hnext⟩ := sampleCalls_run
  have h := store_well_formed schemeParser sampleCalls s hrun
  obtain ⟨l, hl⟩ := h.2.2.2.2.2.1 "abc123" d hd
  exact ⟨s, d, l, hrun, hd, hl, h.2.2.1 _ _ hd, hid, hnext, h.2.2.2.1 _ _ hd, h.2.1,
    h.2.2.2.2.2.2 5000 5001 "ua" (zeroRand 0) "abc123"⟩

end UrlShortener
